import Mathlib

/-!
Shallow embedding of the Finance-Insight-Service repository
(`src/finance_insight_service/{full_main,api_server}.py` and
`tools/market_data_fetch.py`), together with theorems settling the
frozen claims about its specification.

Python values flowing through the pipeline (results of `json.loads`,
`ast.literal_eval`, planner/audit structured outputs) are modelled by
the inductive type `PyVal`.  Python floats are modelled as a pair
(significand, decimal exponent): no claim depends on floating-point
rounding, only on truthiness and (non-)emptiness of values.
Python exceptions are modelled by `Option`: a function that can raise
returns `Option.none` on the raising inputs.
-/

namespace Fis

/-- Model of a Python value as produced by `json.loads` / `ast.literal_eval`
(None, bool, int, float, str, list, dict-with-string-keys).  Floats carry a
significand and a decimal exponent. -/
inductive PyVal where
  | none : PyVal
  | bool : Bool → PyVal
  | int : Int → PyVal
  | float : Int → Int → PyVal
  | str : String → PyVal
  | list : List PyVal → PyVal
  | dict : List (String × PyVal) → PyVal

/-- Python truthiness (`bool(v)`): None/False/0/""/[]/{} are falsy. -/
def pyTruthy : PyVal → Bool
  | .none => false
  | .bool b => b
  | .int n => n != 0
  | .float m _ => m != 0
  | .str s => s ≠ ""
  | .list l => !l.isEmpty
  | .dict l => !l.isEmpty

/-- Characters treated as whitespace by Python `str.strip()` (ASCII model). -/
def isPySpace (c : Char) : Bool :=
  c = ' ' || c = '\t' || c = '\n' || c = '\r' || c = '\x0b' || c = '\x0c'

/-- `str.strip()` on the character list. -/
def pyStripList (l : List Char) : List Char :=
  ((l.dropWhile isPySpace).reverse.dropWhile isPySpace).reverse

/-- Model of Python `str.strip()`. -/
def pyStrip (s : String) : String := ⟨pyStripList s.data⟩

/-- Model of Python `str.lower()` (ASCII). -/
def pyLower (s : String) : String := ⟨s.data.map Char.toLower⟩

/-- Model of Python `str.upper()` (ASCII). -/
def pyUpper (s : String) : String := ⟨s.data.map Char.toUpper⟩

/-- Insert a key into a Python dict model: if the key is already present its
value is replaced in place (Python dicts keep first-insertion order),
otherwise the binding is appended. -/
def dictInsert (d : List (String × PyVal)) (k : String) (v : PyVal) :
    List (String × PyVal) :=
  match d with
  | [] => [(k, v)]
  | (k', v') :: rest =>
      if k' = k then (k', v) :: rest else (k', v') :: dictInsert rest k v

/-- `dict.get(key)` on the dict model (`None` default, as in Python). -/
def dictGet (d : List (String × PyVal)) (k : String) : PyVal :=
  match d.find? (fun p => p.1 = k) with
  | some p => p.2
  | Option.none => .none

/-- `dict.get(key, default)` on the dict model. -/
def dictGetD (d : List (String × PyVal)) (k : String) (dflt : PyVal) : PyVal :=
  match d.find? (fun p => p.1 = k) with
  | some p => p.2
  | Option.none => dflt

/-- `value.get(key, default)` as used on parser results: raises
(`Option.none`) unless the receiver is a dict. -/
def pyGetD (v : PyVal) (k : String) (dflt : PyVal) : Option PyVal :=
  match v with
  | .dict d => some (dictGetD d k dflt)
  | _ => Option.none

/-- `value.get(key)` (None default): raises unless the receiver is a dict. -/
def pyGet (v : PyVal) (k : String) : Option PyVal :=
  pyGetD v k .none

/-! ### Model of `json.loads` (strict JSON parsing)

A recursive-descent parser over the character list, fuelled for
termination.  It follows the JSON grammar accepted by Python's `json`
module: `null/true/false`, numbers, double-quoted strings with the
standard escapes, arrays and objects; `json.loads` requires the whole
(whitespace-trimmed) input to be consumed.  Duplicate object keys keep
the last value at the position of the first insertion, as Python dicts
do. -/

/-- JSON structural whitespace (space, tab, newline, carriage return). -/
def jsonWs (l : List Char) : List Char :=
  l.dropWhile (fun c => c = ' ' || c = '\t' || c = '\n' || c = '\r')

/-- Digit test. -/
def isDigitCh (c : Char) : Bool := '0' ≤ c && c ≤ '9'

/-- Numeric value of a digit character. -/
def digitVal (c : Char) : Nat := c.toNat - '0'.toNat

/-- Fold a digit run into a natural number. -/
def digitsToNat (l : List Char) : Nat :=
  l.foldl (fun acc c => acc * 10 + digitVal c) 0

/-- Split a leading run of digits off a character list. -/
def takeDigits (l : List Char) : List Char × List Char :=
  (l.takeWhile isDigitCh, l.dropWhile isDigitCh)

/-- Parse a JSON number (leading sign already included in the grammar):
returns the numeric `PyVal` (int when no fraction/exponent, float
otherwise) and the unconsumed rest, or `none` when the head of the input
does not match the JSON number grammar. -/
def jnumber (l : List Char) : Option (PyVal × List Char) :=
  let (neg, l1) :=
    match l with
    | '-' :: r => (true, r)
    | _ => (false, l)
  let ipart : Option (Nat × List Char) :=
    match l1 with
    | '0' :: r => some (0, r)
    | c :: _ =>
        if isDigitCh c then
          let (ds, r) := takeDigits l1
          some (digitsToNat ds, r)
        else Option.none
    | [] => Option.none
  match ipart with
  | Option.none => Option.none
  | some (ival, r1) =>
    -- optional fraction: '.' followed by at least one digit
    let fpar : Option (List Char × List Char) :=
      match r1 with
      | '.' :: c :: rest =>
          if isDigitCh c then
            let (ds, r) := takeDigits (c :: rest)
            some (ds, r)
          else Option.none
      | _ => Option.none
    let (fds, r2) := match fpar with
      | some (ds, r) => (ds, r)
      | Option.none => ([], r1)
    -- optional exponent: e/E, optional sign, at least one digit
    let epar : Option (Int × List Char) :=
      match r2 with
      | c :: rest =>
          if c = 'e' || c = 'E' then
            match rest with
            | '+' :: c2 :: rest2 =>
                if isDigitCh c2 then
                  let (ds, r) := takeDigits (c2 :: rest2)
                  some ((digitsToNat ds : Int), r)
                else Option.none
            | '-' :: c2 :: rest2 =>
                if isDigitCh c2 then
                  let (ds, r) := takeDigits (c2 :: rest2)
                  some (-(digitsToNat ds : Int), r)
                else Option.none
            | c2 :: rest2 =>
                if isDigitCh c2 then
                  let (ds, r) := takeDigits (c2 :: rest2)
                  some ((digitsToNat ds : Int), r)
                else Option.none
            | [] => Option.none
          else Option.none
      | [] => Option.none
    let (eexp, r3, isFloat) := match epar with
      | some (e, r) => (e, r, true)
      | Option.none => (0, r2, !fds.isEmpty)
    if isFloat then
      let mant : Int := (ival * 10 ^ fds.length + digitsToNat fds : Nat)
      let mant := if neg then -mant else mant
      some (.float mant (eexp - fds.length), r3)
    else
      let v : Int := if neg then -(ival : Int) else (ival : Int)
      some (.int v, r3)

/-- Value of four hex digits, if all four characters are hex digits. -/
def hex4 (a b c d : Char) : Option Nat :=
  let hv : Char → Option Nat := fun ch =>
    if isDigitCh ch then some (digitVal ch)
    else if 'a' ≤ ch && ch ≤ 'f' then some (ch.toNat - 'a'.toNat + 10)
    else if 'A' ≤ ch && ch ≤ 'F' then some (ch.toNat - 'A'.toNat + 10)
    else Option.none
  match hv a, hv b, hv c, hv d with
  | some x, some y, some z, some w => some (((x * 16 + y) * 16 + z) * 16 + w)
  | _, _, _, _ => Option.none

/-- Parse the body of a JSON string after the opening quote: returns the
accumulated characters and the rest after the closing quote. -/
def jstringBody : List Char → List Char → Option (List Char × List Char)
  | acc, '"' :: rest => some (acc.reverse, rest)
  | acc, '\\' :: c :: rest =>
      match c with
      | '"' => jstringBody ('"' :: acc) rest
      | '\\' => jstringBody ('\\' :: acc) rest
      | '/' => jstringBody ('/' :: acc) rest
      | 'b' => jstringBody ('\x08' :: acc) rest
      | 'f' => jstringBody ('\x0c' :: acc) rest
      | 'n' => jstringBody ('\n' :: acc) rest
      | 'r' => jstringBody ('\r' :: acc) rest
      | 't' => jstringBody ('\t' :: acc) rest
      | 'u' =>
          match rest with
          | a :: b :: c2 :: d :: rest2 =>
              match hex4 a b c2 d with
              | some n => jstringBody (Char.ofNat n :: acc) rest2
              | Option.none => Option.none
          | _ => Option.none
      | _ => Option.none
  | acc, c :: rest =>
      -- unescaped control characters are rejected by the strict parser
      if c.toNat < 0x20 then Option.none else jstringBody (c :: acc) rest
  | _, [] => Option.none

mutual

/-- Parse one JSON value (leading whitespace already skipped). -/
def jval : Nat → List Char → Option (PyVal × List Char)
  | 0, _ => Option.none
  | fuel + 1, l =>
    match l with
    | 'n' :: 'u' :: 'l' :: 'l' :: rest => some (.none, rest)
    | 't' :: 'r' :: 'u' :: 'e' :: rest => some (.bool true, rest)
    | 'f' :: 'a' :: 'l' :: 's' :: 'e' :: rest => some (.bool false, rest)
    | '"' :: rest =>
        match jstringBody [] rest with
        | some (cs, r) => some (.str ⟨cs⟩, r)
        | Option.none => Option.none
    | '[' :: rest =>
        match jsonWs rest with
        | ']' :: r => some (.list [], r)
        | r => jarrItems fuel r []
    | '{' :: rest =>
        match jsonWs rest with
        | '}' :: r => some (.dict [], r)
        | r => jobjItems fuel r []
    | _ => jnumber l

/-- Parse the remaining items of a non-empty JSON array. -/
def jarrItems : Nat → List Char → List PyVal → Option (PyVal × List Char)
  | 0, _, _ => Option.none
  | fuel + 1, l, acc =>
    match jval fuel l with
    | Option.none => Option.none
    | some (v, rest) =>
      match jsonWs rest with
      | ',' :: r => jarrItems fuel (jsonWs r) (v :: acc)
      | ']' :: r => some (.list (v :: acc).reverse, r)
      | _ => Option.none

/-- Parse the remaining members of a non-empty JSON object. -/
def jobjItems : Nat → List Char → List (String × PyVal) →
    Option (PyVal × List Char)
  | 0, _, _ => Option.none
  | fuel + 1, l, acc =>
    match l with
    | '"' :: rest =>
        match jstringBody [] rest with
        | Option.none => Option.none
        | some (kcs, r1) =>
          match jsonWs r1 with
          | ':' :: r2 =>
            match jval fuel (jsonWs r2) with
            | Option.none => Option.none
            | some (v, rest2) =>
              let acc' := dictInsert acc ⟨kcs⟩ v
              match jsonWs rest2 with
              | ',' :: r3 => jobjItems fuel (jsonWs r3) acc'
              | '}' :: r3 => some (.dict acc', r3)
              | _ => Option.none
          | _ => Option.none
    | _ => Option.none

end

/-- Model of Python `json.loads`: parse the whole string as one JSON value;
trailing whitespace is allowed, anything else is a parse error
(`JSONDecodeError`, modelled as `Option.none`). -/
def json_loads (s : String) : Option PyVal :=
  match jval (s.length + 1) (jsonWs s.data) with
  | some (v, rest) => if (jsonWs rest).isEmpty then some v else Option.none
  | Option.none => Option.none

/-! ### Model of `ast.literal_eval`

The parser accepts the Python-literal subset relevant to this program:
`None/True/False`, signed integer and float literals, single- or
double-quoted strings with the common escapes, lists and dicts with
string-literal keys (trailing commas allowed), surrounded by whitespace.
Tuples, sets, bytes, complex numbers, hex/octal/binary literals and
digit underscores are outside the modelled subset; inputs using them do
not occur in this development's theorems. -/

/-- Python source whitespace skipped between literal tokens. -/
def pyWs (l : List Char) : List Char :=
  l.dropWhile (fun c => c = ' ' || c = '\t' || c = '\n' || c = '\r' || c = '\x0c')

/-- Body of a Python string literal with quote character `q`: recognised
escapes are translated, unknown escapes keep the backslash (as Python
does), a raw newline or end of input is a syntax error. -/
def pstrBody (q : Char) : List Char → List Char → Option (List Char × List Char)
  | _, [] => Option.none
  | acc, c :: rest =>
    if c = q then some (acc.reverse, rest)
    else if c = '\n' then Option.none
    else if c = '\\' then
      match rest with
      | [] => Option.none
      | e :: rest2 =>
          if e = 'n' then pstrBody q ('\n' :: acc) rest2
          else if e = 't' then pstrBody q ('\t' :: acc) rest2
          else if e = 'r' then pstrBody q ('\r' :: acc) rest2
          else if e = '\\' then pstrBody q ('\\' :: acc) rest2
          else if e = '\'' then pstrBody q ('\'' :: acc) rest2
          else if e = '"' then pstrBody q ('"' :: acc) rest2
          else pstrBody q (e :: '\\' :: acc) rest2
    else pstrBody q (c :: acc) rest

/-- Exponent suffix of a Python float literal (`e`/`E`, optional sign,
at least one digit). -/
def pyExpPart (l : List Char) : Option (Int × List Char) :=
  match l with
  | c :: rest =>
      if c = 'e' || c = 'E' then
        match rest with
        | '+' :: c2 :: rest2 =>
            if isDigitCh c2 then
              let (ds, r) := takeDigits (c2 :: rest2)
              some ((digitsToNat ds : Int), r)
            else Option.none
        | '-' :: c2 :: rest2 =>
            if isDigitCh c2 then
              let (ds, r) := takeDigits (c2 :: rest2)
              some (-(digitsToNat ds : Int), r)
            else Option.none
        | c2 :: rest2 =>
            if isDigitCh c2 then
              let (ds, r) := takeDigits (c2 :: rest2)
              some ((digitsToNat ds : Int), r)
            else Option.none
        | [] => Option.none
      else Option.none
  | [] => Option.none

/-- Python numeric literal with optional unary sign: `12`, `-3.5`, `.5`,
`1.`, `2e8`, … -/
def pyNumLit (l : List Char) : Option (PyVal × List Char) :=
  let (neg, l1) :=
    match l with
    | '-' :: r => (true, pyWs r)
    | '+' :: r => (false, pyWs r)
    | _ => (false, l)
  let (ids, r1) := takeDigits l1
  match r1 with
  | '.' :: r2 =>
      let (fds, r3) := takeDigits r2
      if ids.isEmpty && fds.isEmpty then Option.none
      else
        let (eexp, r4) := match pyExpPart r3 with
          | some (e, r) => (e, r)
          | Option.none => (0, r3)
        let mant : Int := (digitsToNat ids * 10 ^ fds.length + digitsToNat fds : Nat)
        let mant := if neg then -mant else mant
        some (.float mant (eexp - fds.length), r4)
  | _ =>
      if ids.isEmpty then Option.none
      else
        match pyExpPart r1 with
        | some (e, r) =>
            let mant : Int := (digitsToNat ids : Nat)
            some (.float (if neg then -mant else mant) e, r)
        | Option.none =>
            let v : Int := (digitsToNat ids : Nat)
            some (.int (if neg then -v else v), r1)

mutual

/-- Parse one Python literal (leading whitespace already skipped). -/
def pval : Nat → List Char → Option (PyVal × List Char)
  | 0, _ => Option.none
  | fuel + 1, l =>
    match l with
    | 'N' :: 'o' :: 'n' :: 'e' :: rest => some (.none, rest)
    | 'T' :: 'r' :: 'u' :: 'e' :: rest => some (.bool true, rest)
    | 'F' :: 'a' :: 'l' :: 's' :: 'e' :: rest => some (.bool false, rest)
    | '\'' :: rest =>
        match pstrBody '\'' [] rest with
        | some (cs, r) => some (.str ⟨cs⟩, r)
        | Option.none => Option.none
    | '"' :: rest =>
        match pstrBody '"' [] rest with
        | some (cs, r) => some (.str ⟨cs⟩, r)
        | Option.none => Option.none
    | '[' :: rest =>
        match pyWs rest with
        | ']' :: r => some (.list [], r)
        | r => plistItems fuel r []
    | '{' :: rest =>
        match pyWs rest with
        | '}' :: r => some (.dict [], r)
        | r => pdictItems fuel r []
    | _ => pyNumLit l

/-- Items of a non-empty Python list literal (trailing comma allowed). -/
def plistItems : Nat → List Char → List PyVal → Option (PyVal × List Char)
  | 0, _, _ => Option.none
  | fuel + 1, l, acc =>
    match pval fuel l with
    | Option.none => Option.none
    | some (v, rest) =>
      match pyWs rest with
      | ',' :: r =>
          match pyWs r with
          | ']' :: r2 => some (.list (v :: acc).reverse, r2)
          | r2 => plistItems fuel r2 (v :: acc)
      | ']' :: r => some (.list (v :: acc).reverse, r)
      | _ => Option.none

/-- Members of a non-empty Python dict literal with string-literal keys
(trailing comma allowed). -/
def pdictItems : Nat → List Char → List (String × PyVal) →
    Option (PyVal × List Char)
  | 0, _, _ => Option.none
  | fuel + 1, l, acc =>
    match pval fuel l with
    | some (.str k, rest) =>
      match pyWs rest with
      | ':' :: r2 =>
        match pval fuel (pyWs r2) with
        | Option.none => Option.none
        | some (v, rest2) =>
          let acc' := dictInsert acc k v
          match pyWs rest2 with
          | ',' :: r3 =>
              match pyWs r3 with
              | '}' :: r4 => some (.dict acc', r4)
              | r4 => pdictItems fuel r4 acc'
          | '}' :: r3 => some (.dict acc', r3)
          | _ => Option.none
      | _ => Option.none
    | _ => Option.none

end

/-- Model of `ast.literal_eval` on the documented literal subset; a value
outside the subset or malformed input is a `ValueError`/`SyntaxError`,
modelled as `Option.none`. -/
def ast_literal_eval (s : String) : Option PyVal :=
  match pval (s.length + 1) (pyWs s.data) with
  | some (v, rest) => if (pyWs rest).isEmpty then some v else Option.none
  | Option.none => Option.none

/-! ### `str()`, `repr()`, `int()`, `json.dumps` and Python `or` -/

/-- Rendering of a float model value.  Python prints floats in
decimal/scientific notation; only the non-emptiness of the rendering
matters to any claim in this development. -/
def floatRepr (m e : Int) : String := toString m ++ "e" ++ toString e

mutual

/-- Model of Python `repr` (strings are quoted without further escaping;
no claim depends on the exact rendering of containers). -/
def pyRepr : PyVal → String
  | .none => "None"
  | .bool b => if b then "True" else "False"
  | .int n => toString n
  | .float m e => floatRepr m e
  | .str s => "'" ++ s ++ "'"
  | .list l => "[" ++ pyReprList l ++ "]"
  | .dict d => "\x7b" ++ pyReprDict d ++ "\x7d"

/-- Comma-separated reprs of list elements. -/
def pyReprList : List PyVal → String
  | [] => ""
  | [x] => pyRepr x
  | x :: y :: xs => pyRepr x ++ ", " ++ pyReprList (y :: xs)

/-- Comma-separated reprs of dict members. -/
def pyReprDict : List (String × PyVal) → String
  | [] => ""
  | [(k, v)] => "'" ++ k ++ "': " ++ pyRepr v
  | (k, v) :: m :: ms => "'" ++ k ++ "': " ++ pyRepr v ++ ", " ++ pyReprDict (m :: ms)

end

/-- Model of Python `str()`. -/
def pyStr : PyVal → String
  | .str s => s
  | v => pyRepr v

/-- Truncation of a float model value toward zero, as Python `int(float)`. -/
def pyFloatTrunc (m e : Int) : Int :=
  if 0 ≤ e then m * 10 ^ e.toNat else Int.tdiv m (10 ^ (-e).toNat)

/-- Model of Python `int(str)`: optional surrounding whitespace, optional
sign, then a non-empty digit run (digit underscores omitted from the
model); anything else raises `ValueError` (`Option.none`). -/
def pyIntOfString (s : String) : Option Int :=
  let l := pyStripList s.data
  let (neg, l1) :=
    match l with
    | '-' :: r => (true, r)
    | '+' :: r => (false, r)
    | _ => (false, l)
  if l1.isEmpty || !(l1.all isDigitCh) then Option.none
  else
    let n : Int := (digitsToNat l1 : Nat)
    some (if neg then -n else n)

/-- Model of Python `int(value)`: bools and ints convert, floats truncate,
strings parse; `None`, lists and dicts raise `TypeError`
(`Option.none`). -/
def pyToInt : PyVal → Option Int
  | .bool b => some (if b then 1 else 0)
  | .int n => some n
  | .float m e => some (pyFloatTrunc m e)
  | .str s => pyIntOfString s
  | _ => Option.none

/-- Escapes used by the `json.dumps` model. -/
def jsonEscapeChar (c : Char) : List Char :=
  if c = '"' then ['\\', '"']
  else if c = '\\' then ['\\', '\\']
  else if c = '\n' then ['\\', 'n']
  else if c = '\t' then ['\\', 't']
  else if c = '\r' then ['\\', 'r']
  else [c]

/-- String escaping for the `json.dumps` model (the `ensure_ascii`
escaping of non-ASCII characters is immaterial to every claim). -/
def jsonEscape (s : String) : String := ⟨s.data.flatMap jsonEscapeChar⟩

mutual

/-- Model of `json.dumps` with default separators. -/
def json_dumps : PyVal → String
  | .none => "null"
  | .bool b => if b then "true" else "false"
  | .int n => toString n
  | .float m e => floatRepr m e
  | .str s => "\"" ++ jsonEscape s ++ "\""
  | .list l => "[" ++ jsonDumpsList l ++ "]"
  | .dict d => "\x7b" ++ jsonDumpsDict d ++ "\x7d"

/-- Comma-separated dumps of list elements. -/
def jsonDumpsList : List PyVal → String
  | [] => ""
  | [x] => json_dumps x
  | x :: y :: xs => json_dumps x ++ ", " ++ jsonDumpsList (y :: xs)

/-- Comma-separated dumps of dict members. -/
def jsonDumpsDict : List (String × PyVal) → String
  | [] => ""
  | [(k, v)] => "\"" ++ jsonEscape k ++ "\": " ++ json_dumps v
  | (k, v) :: m :: ms =>
      "\"" ++ jsonEscape k ++ "\": " ++ json_dumps v ++ ", " ++ jsonDumpsDict (m :: ms)

end

/-- Python `a or b` (left value when truthy, otherwise right value). -/
def pyOr (a b : PyVal) : PyVal := if pyTruthy a then a else b

/-- Python `value == "s"` as used by `"name" in some_list`: true exactly
for the equal string. -/
def pyEqStr (v : PyVal) (s : String) : Bool :=
  match v with
  | .str t => t = s
  | _ => false

/-! ### `full_main.py` helpers

Stage outputs in the pipeline model are strings, for which
`_extract_text` is the identity, so `_parse_json` is modelled directly
on strings. -/

/-- The bracket-offset retries of `full_main._parse_json` (lines 33–39):
`json.loads` from the offset of the first `{`, then from the offset of
the first `[` (`str.find` returning −1 means the offset is skipped). -/
def jsonFromFirstBracket (t : String) : Option PyVal :=
  let tryFrom : Option Nat → Option PyVal := fun idx =>
    match idx with
    | some i => json_loads ⟨t.data.drop i⟩
    | Option.none => Option.none
  match tryFrom (t.data.findIdx? (· = '{')) with
  | some v => some v
  | Option.none => tryFrom (t.data.findIdx? (· = '['))

/-- `full_main._parse_json`: strict JSON parse of the trimmed text, then a
retry from the first `{` and from the first `[`, then `ast.literal_eval`,
then the unstructured fallback `{"raw_output": trimmed}`; blank input
yields `{}`.  The function is total: no input raises. -/
def parse_json (text : String) : PyVal :=
  let stripped := pyStrip text
  if stripped = "" then .dict []
  else
    match json_loads stripped with
    | some v => v
    | Option.none =>
      match jsonFromFirstBracket stripped with
      | some v => v
      | Option.none =>
        match ast_literal_eval stripped with
        | some v => v
        | Option.none => .dict [("raw_output", .str stripped)]

/-- `full_main._as_bool`. -/
def as_bool (v : PyVal) : Bool :=
  match v with
  | .bool b => b
  | .str s =>
      let t := pyLower (pyStrip s)
      t = "true" || t = "yes" || t = "1"
  | _ => pyTruthy v

/-- `full_main._normalize_list` (same code appears in `api_server.py`). -/
def normalize_list (v : PyVal) : List String :=
  match v with
  | .none => []
  | .list items => (items.map (fun it => pyStrip (pyStr it))).filter (· ≠ "")
  | .str s => ((s.data.splitOn ',').map (fun cs => pyStrip ⟨cs⟩)).filter (· ≠ "")
  | _ => [pyStrip (pyStr v)]

/-- `full_main._build_csv_string`. -/
def build_csv_string (v : PyVal) : String :=
  String.intercalate ", " (normalize_list v)

/-- `full_main._build_search_query`; raises (`Option.none`) when `query`
is not a string (Python would fail at `query.strip()`). -/
def build_search_query (query : PyVal) (tickers sites : PyVal) : Option String :=
  match query with
  | .str q =>
      let parts := if pyStrip q ≠ "" then [pyStrip q] else []
      let tl := normalize_list tickers
      let parts :=
        if tl ≠ [] then parts ++ ["(" ++ String.intercalate " OR " tl ++ ")"]
        else parts
      let sl := normalize_list sites
      let parts :=
        if sl ≠ [] then
          parts ++
            ["(" ++ String.intercalate " OR " (sl.map (fun s => "site:" ++ s)) ++ ")"]
        else parts
      some (pyStrip (String.intercalate " " parts))
  | _ => Option.none

/-- Flattened inputs produced by `full_main._normalize_research_request`. -/
structure ResearchInputs where
  user_request : PyVal
  query : PyVal
  tickers : String
  sites : String
  days : Int
  max_articles : Int
  search_query : PyVal

/-- `full_main._normalize_research_request`; `Option.none` models the
exceptions Python can raise there (`.get` on a non-dict request, `int()`
on a non-numeric value, `.strip()` on a non-string query). -/
def normalize_research_request (request : PyVal)
    (defaults : List (String × PyVal)) : Option ResearchInputs :=
  match request with
  | .dict rd =>
    let query := pyOr (dictGet rd "query") (pyOr (dictGet defaults "query") (.str ""))
    let tickers_raw :=
      pyOr (dictGet rd "tickers") (pyOr (dictGet defaults "tickers") (.str ""))
    let sites_raw :=
      pyOr (dictGet rd "sites") (pyOr (dictGet defaults "sites") (.str ""))
    let user_request :=
      pyOr (dictGet rd "user_request") (pyOr (dictGet defaults "user_request") (.str ""))
    match pyToInt (pyOr (dictGet rd "days") (pyOr (dictGet defaults "days") (.int 7))) with
    | Option.none => Option.none
    | some days =>
    match pyToInt (pyOr (dictGet rd "max_articles")
        (pyOr (dictGet defaults "max_articles") (.int 8))) with
    | Option.none => Option.none
    | some max_articles =>
      let sq0 := dictGet rd "search_query"
      let sq : Option PyVal :=
        if pyTruthy sq0 then some sq0
        else
          match build_search_query query tickers_raw sites_raw with
          | some s => some (.str s)
          | Option.none => Option.none
      match sq with
      | Option.none => Option.none
      | some search_query =>
          some { user_request, query, tickers := build_csv_string tickers_raw,
                 sites := build_csv_string sites_raw, days, max_articles,
                 search_query }
  | _ => Option.none

/-- Flattened inputs produced by `full_main._normalize_quant_request`. -/
structure QuantInputs where
  symbol : String
  interval : PyVal
  outputsize : Int
  horizon_days : Int
  request : PyVal
  provided_data : PyVal

/-- `full_main._normalize_quant_request`; `Option.none` models the
exceptions Python can raise there (`.get` on a non-dict request, `int()`
on a non-numeric value). -/
def normalize_quant_request (request : PyVal) (defaults : List (String × PyVal))
    (user_request : String) : Option QuantInputs :=
  match request with
  | .dict rd =>
    let symbol_raw :=
      pyOr (dictGet rd "symbol") (pyOr (dictGet defaults "symbol") (.str ""))
    let symbols := normalize_list symbol_raw
    let symbol := symbols.headD ""
    let req0 := pyOr (dictGet rd "request") (.str user_request)
    let req_text : PyVal :=
      if symbols.length > 1 then
        .str (pyStr req0 ++ " (multiple symbols requested; analyzing " ++
          symbol ++ " only)")
      else req0
    match pyToInt (pyOr (dictGet rd "outputsize")
        (pyOr (dictGet defaults "outputsize") (.int 260))) with
    | Option.none => Option.none
    | some outputsize =>
    match pyToInt (pyOr (dictGet rd "horizon_days")
        (pyOr (dictGet defaults "horizon_days") (.int 30))) with
    | Option.none => Option.none
    | some horizon_days =>
      some { symbol,
             interval :=
               pyOr (dictGet rd "interval") (pyOr (dictGet defaults "interval") (.str "1day")),
             outputsize, horizon_days, request := req_text,
             provided_data :=
               pyOr (dictGet rd "provided_data")
                 (pyOr (dictGet defaults "provided_data") (.str "")) }
  | _ => Option.none

/-! ### The pipeline of `full_main.main`

A run is driven by an oracle `CrewEnv` standing for the LLM crew:
`env n task` is the raw text returned by the `n`-th `_run_task` call of
the run when it executes `task`.  The task inputs built by `main` are
strings injected into prompts; the oracle's freedom over the call index
subsumes any dependence of the model's answer on them.  The list of
task names invoked so far is threaded through the run as its trace.
Python exceptions (`.get` on a non-dict, `int()` on a non-numeric
value, `.upper()` on a non-string) abort the run: the model returns
`Option.none` there. -/

/-- The crew oracle: raw text by call index and task name. -/
def CrewEnv := Nat → String → String

/-- Command-line arguments of `full_main.main` (after `argparse`; the
numeric arguments are ints by `type=int`). -/
structure Args where
  request : String
  conversation_summary : String
  sources_requested : Bool
  symbol : String
  interval : String
  outputsize : Int
  horizon_days : Int
  provided_data : String
  query : String
  tickers : String
  sites : String
  days : Int
  max_articles : Int

/-- The `runtime_defaults` dict built once per run (`full_main.main`,
lines 159–171). -/
def runtimeDefaults (a : Args) : List (String × PyVal) :=
  [("user_request", .str a.request),
   ("symbol", .str a.symbol),
   ("interval", .str a.interval),
   ("outputsize", .int a.outputsize),
   ("horizon_days", .int a.horizon_days),
   ("provided_data", .str a.provided_data),
   ("query", .str (if a.query ≠ "" then a.query else a.request)),
   ("tickers", .str a.tickers),
   ("sites", .str a.sites),
   ("days", .int a.days),
   ("max_articles", .int a.max_articles)]

/-- `full_main._run_task`: one crew kickoff; returns the raw text and the
extended call trace. -/
def runTask (env : CrewEnv) (calls : List String) (name : String) :
    String × List String :=
  (env calls.length name, calls ++ [name])

/-- The synthetic "no data" quant payload substituted by the empty-input
short-circuit (`full_main.main`, lines 203–210). -/
def quantFallbackPayload : PyVal :=
  .dict [("as_of", .dict []),
         ("snapshot", .dict [("data_points", .int 0)]),
         ("limitations",
          .list [.str "Quant request missing symbol or provided_data."])]

/-- The research stage of `full_main.main` (lines 195–197): extract and
normalize the request, then invoke the research task.  Returns the raw
research output and the extended trace. -/
def runResearchStage (env : CrewEnv) (a : Args) (planner_output : PyVal)
    (calls : List String) : Option (String × List String) :=
  match pyGet planner_output "research_request" with
  | Option.none => Option.none
  | some rr0 =>
    match normalize_research_request (pyOr rr0 (.dict [])) (runtimeDefaults a) with
    | Option.none => Option.none
    | some _ => some (runTask env calls "research")

/-- The quant stage of `full_main.main` (lines 199–212): extract and
normalize the request; when neither a symbol nor provided data is
available, substitute the serialized synthetic payload without invoking
the quant task; otherwise invoke it. -/
def runQuantStage (env : CrewEnv) (a : Args) (planner_output : PyVal)
    (calls : List String) : Option (String × List String) :=
  match pyGet planner_output "quant_request" with
  | Option.none => Option.none
  | some qr0 =>
    match normalize_quant_request (pyOr qr0 (.dict [])) (runtimeDefaults a) a.request with
    | Option.none => Option.none
    | some qi =>
      if qi.symbol = "" && !pyTruthy qi.provided_data then
        some (json_dumps quantFallbackPayload, calls)
      else
        some (runTask env calls "quant")

/-- State threaded through the repair loop of `full_main.main`. -/
structure LoopState where
  calls : List String
  research_output : String
  quant_output : String
  audit_output : PyVal
  use_audit : Bool

/-- The audit verdict extraction (`full_main.main`, lines 232–241):
uppercased `audit_status` (an `AttributeError` on a truthy non-string,
modelled `Option.none`) and the `required_reruns` value. -/
def auditVerdict (audit_output : PyVal) : Option (String × PyVal) :=
  match audit_output with
  | .dict d =>
      match pyOr (dictGet d "audit_status") (.str "") with
      | .str s => some (pyUpper s, pyOr (dictGet d "required_reruns") (.list []))
      | _ => Option.none
  | _ => some ("", .list [])

/-- Whether `needle` is a prefix of `hay`. -/
def listStartsWith : List Char → List Char → Bool
  | [], _ => true
  | _ :: _, [] => false
  | a :: as, b :: bs => a = b && listStartsWith as bs

/-- Whether `needle` occurs contiguously in `hay` (Python `sub in str`). -/
def listIsSub (needle : List Char) : List Char → Bool
  | [] => needle.isEmpty
  | c :: rest => listStartsWith needle (c :: rest) || listIsSub needle rest

/-- Python `"name" in container` as used on `required_reruns`: list
membership by string equality, substring test on a string, key test on a
dict, `TypeError` otherwise. -/
def pyContains (container : PyVal) (s : String) : Option Bool :=
  match container with
  | .list items => some (items.any (fun v => pyEqStr v s))
  | .str t => some (listIsSub s.data t.data)
  | .dict d => some (d.any (fun p => p.1 = s))
  | _ => Option.none

/-- The audit phase of a repair-loop iteration (`full_main.main`, lines
220–230): run the audit task when selected and some stage output
exists, otherwise reset `audit_output` to the empty string. -/
def auditPhase (env : CrewEnv) (s : LoopState) : PyVal × List String :=
  if s.use_audit && (s.research_output ≠ "" || s.quant_output ≠ "") then
    let (audit_raw, c) := runTask env s.calls "audit"
    (parse_json audit_raw, c)
  else (.str "", s.calls)

/-- `planner_output.get("plan", {}) if isinstance(planner_output, dict)
else {}` (`full_main.main`, line 257). -/
def planOf (planner_output : PyVal) : PyVal :=
  match planner_output with
  | .dict d => dictGetD d "plan" (.dict [])
  | _ => .dict []

/-- `if "research" in required_reruns and use_research:` re-run research,
else keep the previous output (`full_main.main`, lines 262–265). -/
def rerunResearchStep (env : CrewEnv) (a : Args) (planner_output : PyVal)
    (prevOut : String) (in_res use_research : Bool) (calls : List String) :
    Option (String × List String) :=
  if in_res && use_research then runResearchStage env a planner_output calls
  else some (prevOut, calls)

/-- `if "quant" in required_reruns and use_quant:` re-run quant (with no
empty-input short-circuit here), else keep the previous output
(`full_main.main`, lines 266–271). -/
def rerunQuantStep (env : CrewEnv) (a : Args) (planner_output : PyVal)
    (prevOut : String) (in_q use_quant : Bool) (calls : List String) :
    Option (String × List String) :=
  if in_q && use_quant then
    match pyGet planner_output "quant_request" with
    | Option.none => Option.none
    | some qr0 =>
      match normalize_quant_request (pyOr qr0 (.dict []))
          (runtimeDefaults a) a.request with
      | Option.none => Option.none
      | some _ => some (runTask env calls "quant")
  else some (prevOut, calls)

/-- The repair phase of a rejected iteration (`full_main.main`, lines
246–271): re-invoke the planner for a revised plan, then re-run exactly
the stages named in `required_reruns` that the revised plan still
selects; a stage not re-run keeps its previous output. -/
def repairPhase (env : CrewEnv) (a : Args) (s : LoopState)
    (audit_output : PyVal) (calls1 : List String) (required_reruns : PyVal) :
    Option LoopState :=
  let (planner_raw, calls2) := runTask env calls1 "planner"
  let planner_output := parse_json planner_raw
  let plan : PyVal := planOf planner_output
  match pyGet plan "use_research", pyGet plan "use_quant" with
  | some ur, some uq =>
    match pyContains required_reruns "research" with
    | Option.none => Option.none
    | some in_res =>
      match rerunResearchStep env a planner_output s.research_output in_res
          (as_bool ur) calls2 with
      | Option.none => Option.none
      | some (research_output, calls3) =>
        match pyContains required_reruns "quant" with
        | Option.none => Option.none
        | some in_q =>
          match rerunQuantStep env a planner_output s.quant_output in_q
              (as_bool uq) calls3 with
          | Option.none => Option.none
          | some (quant_output, calls4) =>
            some { calls := calls4, research_output, quant_output,
                   audit_output, use_audit := true }
  | _, _ => Option.none

/-- One iteration of the repair loop (`full_main.main`, lines 219–271):
audit phase, verdict check, break (`Sum.inl`) unless the verdict is
`REJECTED` with truthy `required_reruns`, otherwise the repair phase and
continue (`Sum.inr`). -/
def repairIter (env : CrewEnv) (a : Args) (s : LoopState) :
    Option (LoopState ⊕ LoopState) :=
  let (audit_output, calls1) := auditPhase env s
  match auditVerdict audit_output with
  | Option.none => Option.none
  | some (audit_status, required_reruns) =>
    if audit_status ≠ "REJECTED" || !pyTruthy required_reruns then
      some (.inl { s with calls := calls1, audit_output })
    else
      (repairPhase env a s audit_output calls1 required_reruns).map .inr

/-- The bounded repair loop: at most `n` iterations of `repairIter`
(`for _ in range(max_retries + 1)` with `max_retries = 2` gives
`n = 3`). -/
def runLoop (env : CrewEnv) (a : Args) : Nat → LoopState → Option LoopState
  | 0, s => some s
  | n + 1, s =>
    match repairIter env a s with
    | Option.none => Option.none
    | some (.inl s') => some s'
    | some (.inr s') => runLoop env a n s'

/-- Result of a completed run: the printed text and the task trace. -/
structure RunResult where
  output : String
  calls : List String
  deriving DecidableEq, Repr

/-- `final_output.get("final_response") if isinstance(final_output, dict)
else None` applied to the parse of the final raw text
(`full_main.main`, line 285). -/
def finalResponseOf (raw : String) : PyVal :=
  match parse_json raw with
  | .dict d => dictGet d "final_response"
  | _ => .none

/-- Final-report step of `full_main.main` (lines 283–291): invoke the
planner once more, parse, and print `final_response` when present and
truthy, the raw (untrimmed) text otherwise. -/
def finalStep (env : CrewEnv) (calls : List String) : RunResult :=
  let (final_raw, calls') := runTask env calls "planner"
  let final_response := finalResponseOf final_raw
  if !pyTruthy final_response then { output := final_raw, calls := calls' }
  else { output := pyStr final_response, calls := calls' }

/-- `full_main.main` after argument parsing: initial planner invocation,
conditional research and quant stages, the repair loop, and the final
report.  `Option.none` models an uncaught Python exception. -/
def mainRun (env : CrewEnv) (a : Args) : Option RunResult :=
  let (planner_raw, calls1) := runTask env [] "planner"
  let planner_output := parse_json planner_raw
  match pyGetD planner_output "plan" (.dict []) with
  | Option.none => Option.none
  | some plan =>
    match pyGet plan "use_research", pyGet plan "use_quant",
        pyGetD plan "use_audit" (.bool true) with
    | some ur, some uq, some ua =>
      let use_research := as_bool ur
      let use_quant := as_bool uq
      let use_audit := as_bool ua
      let resStep : Option (String × List String) :=
        if use_research then runResearchStage env a planner_output calls1
        else some ("", calls1)
      match resStep with
      | Option.none => Option.none
      | some (research_output, calls2) =>
        let qStep : Option (String × List String) :=
          if use_quant then runQuantStage env a planner_output calls2
          else some ("", calls2)
        match qStep with
        | Option.none => Option.none
        | some (quant_output, calls3) =>
          let use_audit :=
            if research_output ≠ "" || quant_output ≠ "" then true else use_audit
          match runLoop env a 3
              { calls := calls3, research_output, quant_output,
                audit_output := .str "", use_audit } with
          | Option.none => Option.none
          | some s => some (finalStep env s.calls)
    | _, _, _ => Option.none

/-- Number of invocations of a given task in a trace. -/
def countTask (name : String) (calls : List String) : Nat :=
  (calls.filter (· = name)).length

/-- `api_server._extract_final_response` on a string result (the model's
stage results are strings): returns the reply text and the
parsed-or-raw second component. -/
def extract_final_response (raw : String) : String × PyVal :=
  let stripped := pyStrip raw
  if stripped = "" then ("", .str raw)
  else
    match json_loads stripped with
    | Option.none => (stripped, .str raw)
    | some parsed =>
      match parsed with
      | .dict d =>
          let fr := dictGet d "final_response"
          if pyTruthy fr then (pyStr fr, parsed) else (stripped, parsed)
      | _ => (stripped, parsed)

/-! ### Memory subsystem (`api_server.py`)

The Mongo collections are modelled as lists in insertion order; the
embedding provider, the L2 normalization and the Faiss search results
are supplied by an oracle `MemEnv`.  `createdAt` timestamps are logical
counters. -/

/-- An embedding record (`embeddings` collection). -/
structure EmbRec where
  vector_id : Int
  message_id : String
  threadId : String
  deriving DecidableEq, Repr

/-- A stored message (`messages` collection); `id` models `str(_id)`. -/
structure Msg where
  id : String
  threadId : String
  role : String
  content : String
  createdAt : Nat
  deriving DecidableEq, Repr

/-- The durable store: messages, embedding records, and the
`vector_seq` counter document (`none` = not yet created). -/
structure Store where
  messages : List Msg
  embeddings : List EmbRec
  counter : Option Int
  deriving DecidableEq, Repr

/-- Oracle for the memory manager's external collaborators. -/
structure MemEnv where
  /-- whether an OpenAI client is configured (`OPENAI_API_KEY` set). -/
  hasClient : Bool
  /-- the embedding provider; `Option.none` models a raised exception. -/
  provider : String → Option (List ℚ)
  /-- `faiss.normalize_L2` (floating-point; left abstract). -/
  normalize : List ℚ → List ℚ
  /-- the Faiss index search result `(ids, scores)` for a query vector
  and `top_k`. -/
  search : List ℚ → Nat → List Int × List ℚ

/-- `MemoryManager._embed` (`api_server.py`, lines 474–488): `None` on
blank text, missing client, or provider failure; otherwise the
normalized provider vector. -/
def mem_embed (env : MemEnv) (text : String) : Option (List ℚ) :=
  if pyStrip text = "" then Option.none
  else if !env.hasClient then Option.none
  else
    match env.provider text with
    | Option.none => Option.none
    | some v => some (env.normalize v)

/-- `MongoStore.next_vector_id` (lines 397–404): one atomic
find-one-and-update with `$inc` and upsert, returning the incremented
value (`1` when the counter document did not exist). -/
def next_vector_id (counter : Option Int) : Int × Option Int :=
  match counter with
  | Option.none => (1, some 1)
  | some v => (v + 1, some (v + 1))

/-- Memory-manager state: the durable store plus the Faiss index
contents. -/
structure MemState where
  store : Store
  indexVecs : List (Int × List ℚ)
  deriving DecidableEq, Repr

/-- `MemoryManager.add_message_embedding` (lines 490–496): embed; on
`None` return without any effect; otherwise allocate the next vector id,
add to the Faiss index, and record the embedding metadata. -/
def add_message_embedding (env : MemEnv) (s : MemState)
    (message_id thread_id content : String) : MemState :=
  match mem_embed env content with
  | Option.none => s
  | some v =>
    let (vid, c') := next_vector_id s.store.counter
    { store :=
        { s.store with
          counter := c',
          embeddings := s.store.embeddings ++ [⟨vid, message_id, thread_id⟩] },
      indexVecs := s.indexVecs ++ [(vid, v)] }

/-- `MongoStore.fetch_embedding_meta` (lines 416–424): thread-scoped
records whose vector id is in the given list. -/
def fetch_embedding_meta (st : Store) (vector_ids : List Int)
    (thread_id : String) : List EmbRec :=
  if vector_ids.isEmpty then []
  else st.embeddings.filter
    (fun e => vector_ids.contains e.vector_id && e.threadId = thread_id)

/-- `MongoStore.fetch_messages_by_ids` (lines 426–430). -/
def fetch_messages_by_ids (st : Store) (message_ids : List String) : List Msg :=
  if message_ids.isEmpty then []
  else st.messages.filter (fun m => message_ids.contains m.id)

/-- Python dict comprehension `{key(x): x for x in l}`: the last item
with a given key wins. -/
def lastWins {α : Type} (p : α → Bool) (l : List α) : Option α :=
  l.reverse.find? p

/-- One entry returned by `MemoryManager.search_related`. -/
structure RelEntry where
  message_id : String
  role : String
  content : String
  score : ℚ
  deriving DecidableEq, Repr

/-- The loop body of `MemoryManager.search_related` (lines 512–526):
look up the id's embedding record in the `meta_map` (last-wins dict),
then its message in the `message_map`, skipping the pair when either is
missing. -/
def joinEntry (meta : List EmbRec) (messages : List Msg) (p : Int × ℚ) :
    Option RelEntry :=
  match lastWins (fun e => e.vector_id = p.1) meta with
  | Option.none => Option.none
  | some e =>
    match lastWins (fun m => m.id = e.message_id) messages with
    | Option.none => Option.none
    | some m =>
        some { message_id := e.message_id, role := m.role,
               content := m.content, score := p.2 }

/-- `MemoryManager.search_related` (lines 498–527): embed the query
(empty result on failure), search the index, drop sentinel ids (−1),
join thread-scoped embedding records and message bodies (skipping
records whose meta or message is missing), and collect the entries in
index order. -/
def search_related (env : MemEnv) (st : Store) (thread_id query : String)
    (top_k : Nat) : List RelEntry :=
  match mem_embed env query with
  | Option.none => []
  | some v =>
    let (idsRaw, scores) := env.search v top_k
    let ids := idsRaw.filter (fun i => i ≠ -1)
    let meta := fetch_embedding_meta st ids thread_id
    let message_ids := meta.map (·.message_id)
    let messages := fetch_messages_by_ids st message_ids
    (ids.zip scores).filterMap (joinEntry meta messages)

/-- `MongoStore.list_messages` (lines 364–373): thread messages sorted
by `createdAt` (descending when `newest_first`), limited. -/
def list_messages (st : Store) (thread_id : String) (limit : Nat)
    (newest_first : Bool) : List Msg :=
  let mine := st.messages.filter (fun m => m.threadId = thread_id)
  let sorted :=
    if newest_first then mine.mergeSort (fun a b => a.createdAt ≥ b.createdAt)
    else mine.mergeSort (fun a b => a.createdAt ≤ b.createdAt)
  sorted.take limit

/-- `api_server._trim_text`. -/
def trim_text (s : String) (limit : Nat) : String :=
  if s.length ≤ limit then s
  else ⟨((s.data.take limit).reverse.dropWhile isPySpace).reverse⟩ ++ "..."

/-- The structured content of `MemoryManager.build_summary` (lines
529–549): the recent batch (chronological) and the related entries that
survive the `seen` message-id exclusion. -/
def buildSummaryParts (env : MemEnv) (st : Store) (thread_id query : String) :
    List Msg × List RelEntry :=
  let recent := (list_messages st thread_id 6 true).reverse
  let related := search_related env st thread_id query 6
  let seen := recent.map (·.id)
  (recent, related.filter (fun item => !seen.contains item.message_id))

/-- `MemoryManager.build_summary`: the rendered context text.  The
"Relevant past context:" header is emitted whenever `related` is
non-empty, even if every related entry is excluded by `seen`, exactly as
in the source. -/
def build_summary (env : MemEnv) (st : Store) (thread_id query : String) :
    String :=
  let (recent, kept) := buildSummaryParts env st thread_id query
  let related := search_related env st thread_id query 6
  let lines :=
    (if !recent.isEmpty then
      "Recent messages:" ::
        recent.map (fun m => "- " ++ m.role ++ ": " ++ trim_text m.content 240)
     else []) ++
    (if !related.isEmpty then
      "Relevant past context:" ::
        kept.map (fun item => "- " ++ item.role ++ ": " ++ trim_text item.content 200)
     else [])
  pyStrip (String.intercalate "\n" lines)

/-! ### Market-data fetch tool (`tools/market_data_fetch.py`)

Fetch payloads are modelled as `PyVal` dicts (what `json.dumps`
serializes).  The network responses — parsed row lists or request
failures — come from an oracle; `fetched_at` timestamps come from the
oracle's clock. -/

/-- Oracle for the market-data providers. -/
structure MarketEnv where
  /-- whether `TWELVE_DATA_API_KEY` is set. -/
  twelveKey : Bool
  /-- Twelve Data result: parsed rows (before the `reverse()`), or the
  error message of a failed request / missing `values`. -/
  twelve : String → String → Int → Except String (List PyVal)
  /-- Stooq result: parsed CSV rows, or the error message of a failed
  request. -/
  stooq : String → String → Except String (List PyVal)
  /-- `datetime.utcnow().isoformat() + "Z"`. -/
  now : String

/-- Python `l[-n:]` (and `l[(-n):]` for non-positive `n`). -/
def pyTailSlice {α : Type} (l : List α) (n : Int) : List α :=
  if 0 < n then l.drop (l.length - n.toNat)
  else l.drop (min (-n).toNat l.length)

/-- `market_data_fetch._error_dict`. -/
def error_dict (env : MarketEnv) (provider symbol interval message : String) :
    PyVal :=
  .dict [("provider", .str provider), ("symbol", .str symbol),
         ("interval", .str interval), ("fetched_at", .str env.now),
         ("data", .list []), ("error", .str message)]

/-- `market_data_fetch._fetch_twelve_data` (lines 60–116). -/
def fetch_twelve_data (env : MarketEnv) (symbol interval : String)
    (outputsize : Int) : PyVal :=
  if !env.twelveKey then .dict [("error", .str "TWELVE_DATA_API_KEY missing")]
  else
    match env.twelve symbol interval outputsize with
    | .error msg => error_dict env "twelve_data" symbol interval msg
    | .ok rows =>
        .dict [("provider", .str "twelve_data"), ("symbol", .str symbol),
               ("interval", .str interval), ("fetched_at", .str env.now),
               ("data", .list (pyTailSlice rows.reverse outputsize)),
               ("error", .str "")]

/-- `market_data_fetch._fetch_stooq` (lines 119–165); the interval
mapping and symbol suffixing only shape the URL, which the oracle
absorbs. -/
def fetch_stooq (env : MarketEnv) (symbol interval : String)
    (outputsize : Int) : PyVal :=
  match env.stooq symbol interval with
  | .error msg => error_dict env "stooq" symbol interval msg
  | .ok rows =>
      if rows.isEmpty then error_dict env "stooq" symbol interval "no data returned"
      else
        .dict [("provider", .str "stooq"), ("symbol", .str symbol),
               ("interval", .str interval), ("fetched_at", .str env.now),
               ("data", .list (pyTailSlice rows outputsize)),
               ("error", .str "")]

/-- `MarketDataFetchTool._run` (lines 29–43), returning the payload that
is then serialized with `json.dumps`: strip the symbol (error payload if
blank), normalize the interval, clamp the outputsize to `[10, 2000]`,
try Twelve Data when its key is configured, and fall back to Stooq. -/
def market_data_payload (env : MarketEnv) (symbol0 interval0 : String)
    (outputsize0 : Int) : PyVal :=
  let symbol := pyStrip symbol0
  if symbol = "" then error_dict env "" "" "" "symbol is required"
  else
    let interval := pyLower (pyStrip (if interval0 = "" then "1day" else interval0))
    let outputsize := max 10 (min outputsize0 2000)
    if env.twelveKey then
      let payload := fetch_twelve_data env symbol interval outputsize
      let err := match payload with
        | .dict d => dictGet d "error"
        | _ => .none
      if !pyTruthy err then payload
      else fetch_stooq env symbol interval outputsize
    else fetch_stooq env symbol interval outputsize

/-- `MarketDataFetchTool._run`: the serialized JSON actually returned. -/
def MarketDataFetchTool_run (env : MarketEnv) (symbol interval : String)
    (outputsize : Int) : String :=
  json_dumps (market_data_payload env symbol interval outputsize)

/-- Field access on a payload dict (`None` when absent or not a dict). -/
def pvField (p : PyVal) (k : String) : PyVal :=
  match p with
  | .dict d => dictGet d k
  | _ => .none

/-! ### General lemmas -/

theorem toDigitsCore_len (b : Nat) : ∀ (fuel n : Nat) (ds : List Char),
    ds.length ≤ (Nat.toDigitsCore b fuel n ds).length := by
  intro fuel
  induction fuel with
  | zero => intro n ds; simp [Nat.toDigitsCore]
  | succ f ih =>
    intro n ds
    rw [Nat.toDigitsCore]
    split
    · simp
    · calc ds.length ≤ (Nat.digitChar (n % b) :: ds).length := by simp
        _ ≤ _ := ih _ _

theorem toDigits_ne_nil (n : Nat) : Nat.toDigits 10 n ≠ [] := by
  unfold Nat.toDigits
  intro h
  have h1 := toDigitsCore_len 10 (n + 1) n []
  rw [Nat.toDigitsCore] at h1 h
  revert h h1
  split <;> intro h h1 <;> simp_all
  · have := toDigitsCore_len 10 n (n / 10) [Nat.digitChar (n % 10)]
    rw [h] at this
    simp at this

theorem nat_repr_ne_empty (n : Nat) : Nat.repr n ≠ "" := by
  intro h
  exact toDigits_ne_nil n (congrArg String.data h)

theorem int_toString_ne_empty (n : Int) : toString n ≠ "" := by
  cases n with
  | ofNat m => exact nat_repr_ne_empty m
  | negSucc m =>
      intro h
      have h2 : ("-" ++ Nat.repr (m + 1) : String) = "" := h
      have h3 := congrArg String.length h2
      rw [String.length_append] at h3
      have he : ("-" : String).length = 1 := rfl
      have h0 : ("" : String).length = 0 := rfl
      omega

/-- A truthy Python value renders to a non-empty string. -/
theorem pyStr_ne_empty_of_truthy (v : PyVal) (h : pyTruthy v = true) :
    pyStr v ≠ "" := by
  cases v with
  | none => simp [pyTruthy] at h
  | bool b =>
      cases b
      · simp [pyTruthy] at h
      · exact fun hc => absurd (congrArg String.length hc) (by decide)
  | int n => exact int_toString_ne_empty n
  | float m e =>
      intro hc
      have h2 : (toString m ++ "e" ++ toString e : String) = "" := hc
      have h3 := congrArg String.length h2
      rw [String.length_append, String.length_append] at h3
      have he : ("e" : String).length = 1 := rfl
      have h0 : ("" : String).length = 0 := rfl
      omega
  | str s => simpa [pyTruthy] using h
  | list l =>
      intro hc
      have h2 : ("[" ++ pyReprList l ++ "]" : String) = "" := hc
      have h3 := congrArg String.length h2
      rw [String.length_append, String.length_append] at h3
      have he : ("]" : String).length = 1 := rfl
      have h0 : ("" : String).length = 0 := rfl
      omega
  | dict d =>
      intro hc
      have h2 : ("\x7b" ++ pyReprDict d ++ "\x7d" : String) = "" := hc
      have h3 := congrArg String.length h2
      rw [String.length_append, String.length_append] at h3
      have he : ("\x7d" : String).length = 1 := rfl
      have h0 : ("" : String).length = 0 := rfl
      omega

theorem countTask_append (name : String) (l₁ l₂ : List String) :
    countTask name (l₁ ++ l₂) = countTask name l₁ + countTask name l₂ := by
  simp [countTask, List.filter_append]

theorem countTask_singleton (name other : String) :
    countTask name [other] = if other = name then 1 else 0 := by
  simp [countTask, List.filter]
  split <;> simp_all

theorem pyTailSlice_length_le {α : Type} (l : List α) (n : Int) (h : 0 < n) :
    (pyTailSlice l n).length ≤ n.toNat := by
  simp only [pyTailSlice, if_pos h, List.length_drop]
  omega

/-! ### Concrete instances used by witnesses and counterexamples -/

/-- A plain argument record (`--request "hi"`, all other options at
their `argparse` defaults). -/
def argsW : Args :=
  { request := "hi", conversation_summary := "", sources_requested := false,
    symbol := "", interval := "1day", outputsize := 260, horizon_days := 30,
    provided_data := "", query := "", tickers := "", sites := "",
    days := 7, max_articles := 8 }

/-- A crew oracle whose every answer is the empty string. -/
def envEmpty : CrewEnv := fun _ _ => ""

/-! ### Claim C2 — structured-output parsing policy -/

/-- C2 (counterexample): on input `"None"` the strict parse and both
bracket-offset retries fail, so the claim requires the fallback object
`{"raw_output": "None"}` — but `_parse_json` falls through to
`ast.literal_eval` and returns Python `None` instead. -/
theorem parse_json_claim_counterexample :
    json_loads (pyStrip "None") = Option.none ∧
    jsonFromFirstBracket (pyStrip "None") = Option.none ∧
    parse_json "None" = PyVal.none ∧
    parse_json "None" ≠ PyVal.dict [("raw_output", PyVal.str (pyStrip "None"))] := by
  refine ⟨rfl, rfl, rfl, ?_⟩
  intro h
  rw [show parse_json "None" = PyVal.none from rfl] at h
  exact PyVal.noConfusion h

/-- C2 (amended): for every raw stage text, `_parse_json` returns the
strict JSON parse of the trimmed text when it succeeds; otherwise the
parse from the offset of the first `{` or `[` when that succeeds;
otherwise the `ast.literal_eval` value when that succeeds; and only
otherwise the fallback object whose `raw_output` equals the trimmed
input (blank input yields `{}`).  The function is total, so the parser
never raises. -/
theorem parse_json_fallback (s : String) :
    (pyStrip s = "" → parse_json s = PyVal.dict []) ∧
    (∀ v, json_loads (pyStrip s) = some v → parse_json s = v) ∧
    (∀ v, json_loads (pyStrip s) = Option.none →
      jsonFromFirstBracket (pyStrip s) = some v → parse_json s = v) ∧
    (json_loads (pyStrip s) = Option.none →
      jsonFromFirstBracket (pyStrip s) = Option.none →
      (∀ v, ast_literal_eval (pyStrip s) = some v → parse_json s = v) ∧
      (ast_literal_eval (pyStrip s) = Option.none → pyStrip s ≠ "" →
        parse_json s = PyVal.dict [("raw_output", PyVal.str (pyStrip s))])) := by
  refine ⟨?_, ?_, ?_, ?_⟩
  · intro h; simp [parse_json, h]
  · intro v hv
    by_cases h : pyStrip s = ""
    · rw [h] at hv
      exact Option.noConfusion ((show json_loads "" = Option.none from rfl).symm.trans hv)
    · simp [parse_json, h, hv]
  · intro v h1 h2
    by_cases h : pyStrip s = ""
    · rw [h] at h2
      exact Option.noConfusion
        ((show jsonFromFirstBracket "" = Option.none from rfl).symm.trans h2)
    · simp [parse_json, h, h1, h2]
  · intro h1 h2
    constructor
    · intro v h3
      by_cases h : pyStrip s = ""
      · rw [h] at h3
        exact Option.noConfusion
          ((show ast_literal_eval "" = Option.none from rfl).symm.trans h3)
      · simp [parse_json, h, h1, h2, h3]
    · intro h3 h4
      simp [parse_json, h4, h1, h2, h3]

/-- C2 (witness): the spec's own example — commentary-prefixed JSON is
recovered by the bracket-offset retry. -/
theorem parse_json_fallback_witness :
    parse_json "Here is the answer: \x7b\"final_response\": \"X\"\x7d" =
      PyVal.dict [("final_response", PyVal.str "X")] :=
  (parse_json_fallback _).2.2.1 _ (by rfl) (by rfl)

/-! ### Claim C4 — quant empty-input short-circuit -/

/-- C4: whenever the quant stage is selected and the normalized quant
request yields neither a symbol nor provided data, the pipeline
substitutes the synthetic payload — whose `snapshot.data_points` is `0`
and whose `limitations` list is non-empty — without invoking the quant
task (the call trace is unchanged). -/
theorem quant_short_circuit (env : CrewEnv) (a : Args) (po qr0 : PyVal)
    (calls : List String) (qi : QuantInputs)
    (h1 : pyGet po "quant_request" = some qr0)
    (h2 : normalize_quant_request (pyOr qr0 (.dict [])) (runtimeDefaults a)
            a.request = some qi)
    (h3 : qi.symbol = "") (h4 : pyTruthy qi.provided_data = false) :
    runQuantStage env a po calls = some (json_dumps quantFallbackPayload, calls) ∧
    pvField (pvField quantFallbackPayload "snapshot") "data_points" = PyVal.int 0 ∧
    ∃ lims, pvField quantFallbackPayload "limitations" = PyVal.list lims ∧
      lims ≠ [] := by
  refine ⟨?_, rfl, ⟨_, rfl, by simp⟩⟩
  simp [runQuantStage, h1, h2, h3, h4]

/-- C4 (witness): a planner output with an empty quant request against
default arguments takes the short-circuit. -/
theorem quant_short_circuit_witness :
    runQuantStage envEmpty argsW (PyVal.dict [("quant_request", PyVal.dict [])]) []
      = some (json_dumps quantFallbackPayload, []) ∧
    pvField (pvField quantFallbackPayload "snapshot") "data_points" = PyVal.int 0 ∧
    ∃ lims, pvField quantFallbackPayload "limitations" = PyVal.list lims ∧
      lims ≠ [] :=
  quant_short_circuit envEmpty argsW _ _ []
    ⟨"", .str "1day", 260, 30, .str "hi", .str ""⟩ rfl rfl rfl rfl

/-! ### Claim C7 — best-effort embedding -/

/-- A memory oracle with no configured client and a failing provider. -/
def memEnvOff : MemEnv :=
  { hasClient := false, provider := fun _ => Option.none,
    normalize := id, search := fun _ _ => ([], []) }

/-- An empty memory state. -/
def memState0 : MemState :=
  { store := { messages := [], embeddings := [], counter := Option.none },
    indexVecs := [] }

/-- C7: `_embed` returns `None` — never raising, since the model is a
total function — when the text is blank after stripping, when no
embedding client is configured, or when the provider call fails; and in
each of those cases `add_message_embedding` returns with the state
unchanged: no vector id allocated, no index write, no embedding
record. -/
theorem embed_never_raises (env : MemEnv) (s : MemState)
    (mid tid content : String)
    (h : pyStrip content = "" ∨ env.hasClient = false ∨
         env.provider content = Option.none) :
    mem_embed env content = Option.none ∧
    add_message_embedding env s mid tid content = s := by
  have he : mem_embed env content = Option.none := by
    unfold mem_embed
    rcases h with h | h | h
    · simp [h]
    · split
      · rfl
      · simp [h]
    · split
      · rfl
      · split
        · rfl
        · simp [h]
  exact ⟨he, by simp [add_message_embedding, he]⟩

/-- C7 (witness): with no client configured, embedding "hello" yields
`None` and indexing is a no-op on the empty state. -/
theorem embed_never_raises_witness :
    mem_embed memEnvOff "hello" = Option.none ∧
    add_message_embedding memEnvOff memState0 "m" "t" "hello" = memState0 :=
  embed_never_raises memEnvOff memState0 "m" "t" "hello" (Or.inr (Or.inl rfl))

/-! ### Claim C9 — vector-id allocation -/

/-- The ids handed out by `n` successive `next_vector_id` calls starting
from counter state `c`.  Because the Mongo find-one-and-update is a
single atomic operation, any interleaving of concurrent calls is some
sequence of these steps. -/
def allocIds : Option Int → Nat → List Int × Option Int
  | c, 0 => ([], c)
  | c, n + 1 =>
      let (v, c') := next_vector_id c
      let (rest, c'') := allocIds c' n
      (v :: rest, c'')

theorem allocIds_some (n : Nat) : ∀ v : Int,
    allocIds (some v) n = ((List.range n).map (fun i : Nat => v + 1 + (i : Int)), some (v + n)) := by
  induction n with
  | zero => intro v; simp [allocIds]
  | succ m ih =>
      intro v
      simp only [allocIds, next_vector_id, ih (v + 1)]
      rw [List.range_succ_eq_map, List.map_cons, List.map_map]
      simp only [Prod.mk.injEq, List.cons.injEq, Option.some.injEq]
      refine ⟨⟨by push_cast; ring, ?_⟩, by push_cast; ring⟩
      apply List.map_congr_left
      intro i _
      simp only [Function.comp]
      push_cast
      ring

theorem allocIds_fst (c : Option Int) (n : Nat) :
    (allocIds c n).1 = (List.range n).map (fun i : Nat => c.getD 0 + 1 + (i : Int)) := by
  cases c with
  | some v => rw [allocIds_some]; rfl
  | none =>
      cases n with
      | zero => simp [allocIds]
      | succ m =>
          simp only [allocIds, next_vector_id, allocIds_some m 1]
          rw [List.range_succ_eq_map, List.map_cons, List.map_map]
          simp only [List.cons.injEq]
          refine ⟨by simp, ?_⟩
          apply List.map_congr_left
          intro i _
          simp only [Function.comp, Option.getD]
          push_cast
          ring

theorem chain_succ_base (n : Nat) : ∀ b : Int,
    List.Chain' (fun x y => y = x + 1) ((List.range n).map (fun i : Nat => b + (i : Int))) := by
  induction n with
  | zero => intro b; simp
  | succ m ih =>
      intro b
      rw [List.range_succ_eq_map, List.map_cons, List.map_map]
      have htail : List.map ((fun i : Nat => b + (i : Int)) ∘ Nat.succ) (List.range m)
          = List.map (fun i : Nat => (b + 1) + (i : Int)) (List.range m) := by
        apply List.map_congr_left
        intro i _
        simp only [Function.comp]
        push_cast
        ring
      rw [List.chain'_cons', htail]
      constructor
      · intro y hy
        cases m with
        | zero => simp at hy
        | succ k =>
            rw [List.range_succ_eq_map, List.map_cons] at hy
            simp at hy ⊢
            omega
      · exact ih (b + 1)

/-- C9: each `next_vector_id` call atomically increments the durable
counter and returns the incremented value (`1` on the first-ever call),
so the ids produced by any sequence of calls — concurrent calls
interleave as some sequence, the operation being atomic — are
`base+1, base+2, …`: pairwise distinct, consecutive (no gaps), one per
call. -/
theorem vector_id_allocation (c : Option Int) (n : Nat) :
    next_vector_id c = (c.getD 0 + 1, some (c.getD 0 + 1)) ∧
    (allocIds c n).1 = (List.range n).map (fun i : Nat => c.getD 0 + 1 + (i : Int)) ∧
    (allocIds c n).1.Nodup ∧
    List.Chain' (fun x y => y = x + 1) (allocIds c n).1 ∧
    (allocIds c n).1.length = n := by
  refine ⟨?_, allocIds_fst c n, ?_, ?_, ?_⟩
  · cases c <;> rfl
  · rw [allocIds_fst]
    refine List.Nodup.map ?_ (List.nodup_range n)
    intro i j hij
    simp at hij
    omega
  · rw [allocIds_fst]
    exact chain_succ_base n _
  · rw [allocIds_fst]; simp

/-! ### Claim C10 — outputsize clamp -/

theorem fetch_twelve_data_bound (env : MarketEnv) (symbol interval : String)
    (osz : Int) (h : 0 < osz) :
    ∀ rows, pvField (fetch_twelve_data env symbol interval osz) "data" =
      PyVal.list rows → rows.length ≤ osz.toNat := by
  intro rows hr
  unfold fetch_twelve_data at hr
  split at hr
  · simp [pvField, dictGet, List.find?] at hr
  · split at hr
    · simp [pvField, error_dict, dictGet, List.find?] at hr
      simp [hr]
    · simp [pvField, dictGet, List.find?] at hr
      rw [← hr]
      exact pyTailSlice_length_le _ _ h

theorem fetch_stooq_bound (env : MarketEnv) (symbol interval : String)
    (osz : Int) (h : 0 < osz) :
    ∀ rows, pvField (fetch_stooq env symbol interval osz) "data" =
      PyVal.list rows → rows.length ≤ osz.toNat := by
  intro rows hr
  unfold fetch_stooq at hr
  split at hr
  · simp [pvField, error_dict, dictGet, List.find?] at hr
    simp [hr]
  · split at hr
    · simp [pvField, error_dict, dictGet, List.find?] at hr
      simp [hr]
    · simp [pvField, dictGet, List.find?] at hr
      rw [← hr]
      exact pyTailSlice_length_le _ _ h

/-- C10: for every market-data fetch with a non-blank symbol, the
effective outputsize is the input clamped to `[10, 2000]` (below 10
becomes 10, above 2000 becomes 2000, in-range values pass through), and
the returned payload's data series holds at most that many points. -/
theorem outputsize_clamp (env : MarketEnv) (symbol interval : String)
    (osz : Int) (h : pyStrip symbol ≠ "") :
    (10 ≤ max 10 (min osz 2000) ∧ max 10 (min osz 2000) ≤ 2000 ∧
     (osz < 10 → max 10 (min osz 2000) = 10) ∧
     (2000 < osz → max 10 (min osz 2000) = 2000) ∧
     (10 ≤ osz → osz ≤ 2000 → max 10 (min osz 2000) = osz)) ∧
    ∀ rows, pvField (market_data_payload env symbol interval osz) "data" =
        PyVal.list rows →
      rows.length ≤ (max 10 (min osz 2000)).toNat := by
  have hpos : (0:Int) < max 10 (min osz 2000) := by omega
  constructor
  · refine ⟨?_, ?_, ?_, ?_, ?_⟩ <;> omega
  · intro rows hr
    simp only [market_data_payload] at hr
    rw [if_neg h] at hr
    split at hr
    all_goals split at hr
    all_goals first
      | exact fetch_twelve_data_bound env _ _ _ hpos rows hr
      | exact fetch_stooq_bound env _ _ _ hpos rows hr
      | (split at hr <;>
          first
            | exact fetch_twelve_data_bound env _ _ _ hpos rows hr
            | exact fetch_stooq_bound env _ _ _ hpos rows hr)

/-- A market oracle for the witness: no Twelve Data key, Stooq returning
30 parsed rows. -/
def marketEnvW : MarketEnv :=
  { twelveKey := false, twelve := fun _ _ _ => .error "off",
    stooq := fun _ _ => .ok (List.replicate 30 (PyVal.dict [])),
    now := "2026-01-01T00:00:00Z" }

/-- C10 (witness): fetching `aapl` with outputsize 17 keeps the clamp at
17 and the returned series within 17 points. -/
theorem outputsize_clamp_witness :
    (10 ≤ max 10 (min (17:Int) 2000) ∧ max 10 (min (17:Int) 2000) ≤ 2000 ∧
     ((17:Int) < 10 → max 10 (min (17:Int) 2000) = 10) ∧
     ((2000:Int) < 17 → max 10 (min (17:Int) 2000) = 2000) ∧
     ((10:Int) ≤ 17 → (17:Int) ≤ 2000 → max 10 (min (17:Int) 2000) = 17)) ∧
    ∀ rows, pvField (market_data_payload marketEnvW "aapl" "1day" 17) "data" =
        PyVal.list rows →
      rows.length ≤ (max 10 (min (17:Int) 2000)).toNat :=
  outputsize_clamp marketEnvW "aapl" "1day" 17 (by decide)

/-! ### Structure of a completed pipeline run -/

/-- The state carried by either outcome of a repair iteration. -/
def iterState : LoopState ⊕ LoopState → LoopState
  | .inl t => t
  | .inr t => t

theorem auditPhase_calls (env : CrewEnv) (s : LoopState) :
    ∃ ex, (auditPhase env s).2 = s.calls ++ ex ∧
      countTask "audit" ex ≤ 1 ∧ countTask "planner" ex = 0 := by
  unfold auditPhase runTask
  split
  · exact ⟨["audit"], rfl, by decide, by decide⟩
  · exact ⟨[], by simp, by decide, by decide⟩

theorem runResearchStage_calls (env : CrewEnv) (a : Args) (po : PyVal)
    (c : List String) (out : String × List String)
    (h : runResearchStage env a po c = some out) : out.2 = c ++ ["research"] := by
  unfold runResearchStage runTask at h
  split at h
  · exact Option.noConfusion h
  · split at h
    · exact Option.noConfusion h
    · cases h; rfl

theorem runQuantStage_calls (env : CrewEnv) (a : Args) (po : PyVal)
    (c : List String) (out : String × List String)
    (h : runQuantStage env a po c = some out) :
    out.2 = c ∨ out.2 = c ++ ["quant"] := by
  unfold runQuantStage runTask at h
  split at h
  · exact Option.noConfusion h
  · split at h
    · exact Option.noConfusion h
    · split at h
      · cases h; exact Or.inl rfl
      · cases h; exact Or.inr rfl

theorem rerunResearchStep_calls (env : CrewEnv) (a : Args) (po : PyVal)
    (prev : String) (b1 b2 : Bool) (c : List String) (out : String × List String)
    (h : rerunResearchStep env a po prev b1 b2 c = some out) :
    out.2 = c ∨ out.2 = c ++ ["research"] := by
  unfold rerunResearchStep at h
  split at h
  · exact Or.inr (runResearchStage_calls env a po c out h)
  · cases h; exact Or.inl rfl

theorem rerunQuantStep_calls (env : CrewEnv) (a : Args) (po : PyVal)
    (prev : String) (b1 b2 : Bool) (c : List String) (out : String × List String)
    (h : rerunQuantStep env a po prev b1 b2 c = some out) :
    out.2 = c ∨ out.2 = c ++ ["quant"] := by
  unfold rerunQuantStep runTask at h
  split at h
  · split at h
    · exact Option.noConfusion h
    · split at h
      · exact Option.noConfusion h
      · cases h; exact Or.inr rfl
  · cases h; exact Or.inl rfl

theorem repairPhase_calls (env : CrewEnv) (a : Args) (s : LoopState)
    (ao : PyVal) (c1 : List String) (rr : PyVal) (s' : LoopState)
    (h : repairPhase env a s ao c1 rr = some s') :
    ∃ ex, s'.calls = c1 ++ ex ∧
      countTask "audit" ex = 0 ∧ countTask "planner" ex ≤ 1 := by
  unfold repairPhase runTask at h
  split at h
  rename_i x pr c2 heq
  injection heq with e1 e2
  subst e1
  subst e2
  dsimp only at h
  split at h
  case h_2 => exact Option.noConfusion h
  case h_1 ur uq =>
    split at h
    · exact Option.noConfusion h
    · split at h
      · exact Option.noConfusion h
      · rename_i ro c3 hres
        split at h
        · exact Option.noConfusion h
        · split at h
          · exact Option.noConfusion h
          · rename_i qo c4 hq
            cases h
            have hc3 := rerunResearchStep_calls env a _ _ _ _ _ _ hres
            have hc4 := rerunQuantStep_calls env a _ _ _ _ _ _ hq
            simp only at hc3 hc4
            rcases hc4 with hc4 | hc4 <;> rcases hc3 with hc3 | hc3 <;>
              subst hc4 <;> subst hc3 <;>
              first
                | (refine ⟨["planner"], ?_, ?_, ?_⟩ <;>
                    solve | simp | decide)
                | (refine ⟨["planner", "research"], ?_, ?_, ?_⟩ <;>
                    solve | simp | decide)
                | (refine ⟨["planner", "quant"], ?_, ?_, ?_⟩ <;>
                    solve | simp | decide)
                | (refine ⟨["planner", "research", "quant"], ?_, ?_, ?_⟩ <;>
                    solve | simp | decide)

theorem repairIter_calls (env : CrewEnv) (a : Args) (s : LoopState)
    (out : LoopState ⊕ LoopState) (h : repairIter env a s = some out) :
    ∃ ex, (iterState out).calls = s.calls ++ ex ∧
      countTask "audit" ex ≤ 1 ∧ countTask "planner" ex ≤ 1 := by
  obtain ⟨ex1, hex1, ha1, hp1⟩ := auditPhase_calls env s
  unfold repairIter at h
  rcases hap : auditPhase env s with ⟨ao, c1⟩
  rw [hap] at h hex1
  simp only at hex1
  dsimp only at h
  split at h
  · exact Option.noConfusion h
  · split at h
    · cases h
      exact ⟨ex1, by simp [iterState, hex1], ha1, by omega⟩
    · cases hrp : repairPhase env a s ao c1 _ with
      | none => rw [hrp] at h; exact Option.noConfusion h
      | some s' =>
          rw [hrp] at h
          simp only [Option.map_some'] at h
          cases h
          obtain ⟨ex2, hc, ha2, hp2⟩ := repairPhase_calls env a s ao c1 _ s' hrp
          refine ⟨ex1 ++ ex2, ?_, ?_, ?_⟩
          · simp [iterState, hc, hex1]
          · rw [countTask_append]; omega
          · rw [countTask_append]; omega

theorem runLoop_calls (env : CrewEnv) (a : Args) : ∀ (n : Nat) (s sf : LoopState),
    runLoop env a n s = some sf →
    ∃ ex, sf.calls = s.calls ++ ex ∧
      countTask "audit" ex ≤ n ∧ countTask "planner" ex ≤ n := by
  intro n
  induction n with
  | zero =>
      intro s sf h
      simp only [runLoop, Option.some.injEq] at h
      subst h
      exact ⟨[], by simp, by decide, by decide⟩
  | succ m ih =>
      intro s sf h
      unfold runLoop at h
      split at h
      · exact Option.noConfusion h
      · rename_i s' hiter
        cases h
        obtain ⟨ex, hex, ha, hp⟩ := repairIter_calls env a s _ hiter
        exact ⟨ex, hex, by omega, by omega⟩
      · rename_i s' hiter
        obtain ⟨ex1, hex1, ha1, hp1⟩ := repairIter_calls env a s (.inr s') hiter
        obtain ⟨ex2, hex2, ha2, hp2⟩ := ih s' sf h
        refine ⟨ex1 ++ ex2, ?_, ?_, ?_⟩
        · simp only [iterState] at hex1
          rw [hex2, hex1, List.append_assoc]
        · rw [countTask_append]; omega
        · rw [countTask_append]; omega

theorem countTask_nil (name : String) : countTask name [] = 0 := rfl

theorem countTask_cons (name a : String) (l : List String) :
    countTask name (a :: l) = (if a = name then 1 else 0) + countTask name l := by
  simp only [countTask, List.filter]
  split <;> simp_all [Nat.add_comm]

theorem finalStep_calls (env : CrewEnv) (cs : List String) :
    (finalStep env cs).calls = cs ++ ["planner"] := by
  unfold finalStep runTask
  dsimp only
  split <;> rfl

theorem mainRun_structure (env : CrewEnv) (a : Args) (r : RunResult)
    (h : mainRun env a = some r) :
    ∃ cs, r = finalStep env cs ∧ countTask "audit" cs ≤ 3 ∧
      countTask "planner" cs ≤ 4 := by
  unfold mainRun runTask at h
  split at h
  rename_i x pr c1 heq
  injection heq with e1 e2
  subst e1
  subst e2
  dsimp only at h
  split at h
  · exact Option.noConfusion h
  · rename_i plan hplan
    split at h
    case h_2 => exact Option.noConfusion h
    case h_1 ur uq ua =>
      split at h
      · exact Option.noConfusion h
      · rename_i ro c2 hres
        split at h
        · exact Option.noConfusion h
        · rename_i qo c3 hq
          split at h
          · exact Option.noConfusion h
          · rename_i s hloop
            cases h
            have hc2 : c2 = [] ++ ["planner"] ∨ c2 = ([] ++ ["planner"]) ++ ["research"] := by
              revert hres
              split
              · intro hres
                exact Or.inr (runResearchStage_calls env a _ _ _ hres)
              · intro hres
                injection hres with hres
                injection hres with _ hres
                exact Or.inl hres.symm
            have hc3 : c3 = c2 ∨ c3 = c2 ++ ["quant"] := by
              revert hq
              split
              · intro hq
                exact runQuantStage_calls env a _ _ _ hq
              · intro hq
                injection hq with hq
                injection hq with _ hq
                exact Or.inl hq.symm
            obtain ⟨ex, hex, ha, hp⟩ := runLoop_calls env a 3 _ s hloop
            refine ⟨s.calls, rfl, ?_, ?_⟩
            · rw [hex, countTask_append]
              rcases hc3 with hc3 | hc3 <;> rcases hc2 with hc2 | hc2 <;>
                subst hc3 <;> subst hc2 <;>
                simp [countTask_append, countTask_cons, countTask_nil] <;> omega
            · rw [hex, countTask_append]
              rcases hc3 with hc3 | hc3 <;> rcases hc2 with hc2 | hc2 <;>
                subst hc3 <;> subst hc2 <;>
                simp [countTask_append, countTask_cons, countTask_nil] <;> omega

/-! ### Claim C1 — repair-loop bound -/

/-- An adversarial crew oracle: the auditor always rejects and demands a
research rerun (for every call index), the planner always selects
research, the research task returns fixed text. -/
def envAdv : CrewEnv := fun _ task =>
  if task = "audit" then
    "\x7b\"audit_status\": \"REJECTED\", \"required_reruns\": [\"research\"]\x7d"
  else if task = "planner" then
    "\x7b\"plan\": \x7b\"use_research\": true, \"use_audit\": true\x7d, \"research_request\": \x7b\x7d\x7d"
  else "research results"

/-- C1 (counterexample): against the always-rejecting auditor `envAdv`
(its audit text is the same at every call index, and parses to verdict
`REJECTED` with non-empty rerun list), the run performs **three** full
repair iterations, not two: the planner runs 5 times (1 initial + 3
repairs + 1 final report, where the claim allows at most 4) and research
runs 4 times; the audit count is 3, as claimed.  The audit of each
iteration precedes the break check, so the third iteration still
re-plans and re-runs after the third (final) audit. -/
theorem repair_loop_claim_counterexample :
    (mainRun envAdv argsW).map (fun r => r.calls) = some
      ["planner", "research", "audit", "planner", "research", "audit",
       "planner", "research", "audit", "planner", "research", "planner"] ∧
    auditVerdict (parse_json (envAdv 2 "audit")) =
      some ("REJECTED", PyVal.list [PyVal.str "research"]) ∧
    (mainRun envAdv argsW).map (fun r => countTask "planner" r.calls) = some 5 ∧
    (mainRun envAdv argsW).map (fun r => countTask "audit" r.calls) = some 3 := by
  exact ⟨by rfl, by rfl, by rfl, by rfl⟩

/-- C1 (amended): every completed pipeline run — whatever the oracle
answers, in particular against an auditor that always returns `REJECTED`
with a non-empty `required_reruns` — invokes the audit task at most 3
times and the planner at most 5 times (1 initial + at most 3 repair
iterations + 1 final report), and ends with the final-report planner
invocation.  Termination itself is the totality of `mainRun`: the loop
is a 3-fold iteration, never unbounded. -/
theorem repair_loop_bounded (env : CrewEnv) (a : Args) (r : RunResult)
    (h : mainRun env a = some r) :
    countTask "audit" r.calls ≤ 3 ∧ countTask "planner" r.calls ≤ 5 ∧
    r.calls.getLast? = some "planner" := by
  obtain ⟨cs, hr, ha, hp⟩ := mainRun_structure env a r h
  subst hr
  rw [show (finalStep env cs).calls = cs ++ ["planner"] from finalStep_calls env cs]
  refine ⟨?_, ?_, List.getLast?_concat _⟩
  · rw [countTask_append]
    simp [countTask_cons, countTask_nil]
    omega
  · rw [countTask_append]
    simp [countTask_cons, countTask_nil]
    omega

/-- C1 (witness): the adversarial run completes within the bounds. -/
theorem repair_loop_bounded_witness :
    countTask "audit"
        ["planner", "research", "audit", "planner", "research", "audit",
         "planner", "research", "audit", "planner", "research", "planner"] ≤ 3 ∧
    countTask "planner"
        ["planner", "research", "audit", "planner", "research", "audit",
         "planner", "research", "audit", "planner", "research", "planner"] ≤ 5 ∧
    (["planner", "research", "audit", "planner", "research", "audit",
      "planner", "research", "audit", "planner", "research",
      "planner"] : List String).getLast? = some "planner" :=
  repair_loop_bounded envAdv argsW
    { output := "\x7b\"plan\": \x7b\"use_research\": true, \"use_audit\": true\x7d, \"research_request\": \x7b\x7d\x7d",
      calls := ["planner", "research", "audit", "planner", "research", "audit",
                "planner", "research", "audit", "planner", "research", "planner"] }
    (by rfl)

/-! ### Claim C3 — final response extraction -/

/-- C3 (counterexample): two completed runs refute the claim as stated.
With every oracle answer `"   "` (whitespace), the final stage's parse
has no `final_response`, and the printed text is the raw `"   "`, not
the trimmed raw text `""` the claim requires.  With every answer `""`,
the planner stage executed and the printed text is empty, refuting the
claimed non-emptiness. -/
theorem final_text_claim_counterexample :
    mainRun (fun _ _ => "   ") argsW =
      some { output := "   ", calls := ["planner", "planner"] } ∧
    ("   " : String) ≠ pyStrip "   " ∧
    mainRun envEmpty argsW = some { output := "", calls := ["planner", "planner"] } :=
  ⟨by rfl, by decide, by rfl⟩

/-- C3 (amended): for every completed run (the planner always executes —
the trace ends with the final planner call and contains at least one
planner invocation): when the final stage's parsed `final_response`
field is present and truthy the printed text is its `str()`; otherwise
it is the stage's raw *untrimmed* text; and the printed text is
non-empty whenever the final stage's raw text is non-empty. -/
theorem final_text_spec (env : CrewEnv) (a : Args) (r : RunResult)
    (h : mainRun env a = some r) :
    ∃ cs, r = finalStep env cs ∧
      r.calls.getLast? = some "planner" ∧
      1 ≤ countTask "planner" r.calls ∧
      (pyTruthy (finalResponseOf (env cs.length "planner")) = true →
        r.output = pyStr (finalResponseOf (env cs.length "planner"))) ∧
      (pyTruthy (finalResponseOf (env cs.length "planner")) = false →
        r.output = env cs.length "planner") ∧
      (env cs.length "planner" ≠ "" → r.output ≠ "") := by
  obtain ⟨cs, hr, _, _⟩ := mainRun_structure env a r h
  subst hr
  have hout : ∀ b, pyTruthy (finalResponseOf (env cs.length "planner")) = b →
      (finalStep env cs).output =
        if b then pyStr (finalResponseOf (env cs.length "planner"))
        else env cs.length "planner" := by
    intro b hb
    unfold finalStep runTask
    dsimp only
    cases b <;> simp [hb]
  refine ⟨cs, rfl, ?_, ?_, ?_, ?_, ?_⟩
  · rw [finalStep_calls]
    exact List.getLast?_concat _
  · rw [finalStep_calls, countTask_append]
    simp [countTask_cons, countTask_nil]
  · intro ht
    simpa using hout true ht
  · intro hf
    simpa using hout false hf
  · intro hne
    cases hcase : pyTruthy (finalResponseOf (env cs.length "planner")) with
    | true =>
        rw [hout true hcase]
        simpa using pyStr_ne_empty_of_truthy _ hcase
    | false =>
        rw [hout false hcase]
        simpa using hne

/-- A crew oracle whose every answer carries a truthy `final_response`. -/
def envFinal : CrewEnv := fun _ _ => "\x7b\"final_response\": \"ok\"\x7d"

/-- C3 (witness): a run whose final stage returns structured JSON prints
the extracted `final_response`. -/
theorem final_text_spec_witness :
    ∃ cs, ({ output := "ok", calls := ["planner", "planner"] } : RunResult)
        = finalStep envFinal cs ∧
      (["planner", "planner"] : List String).getLast? = some "planner" ∧
      1 ≤ countTask "planner" ["planner", "planner"] ∧
      (pyTruthy (finalResponseOf (envFinal cs.length "planner")) = true →
        "ok" = pyStr (finalResponseOf (envFinal cs.length "planner"))) ∧
      (pyTruthy (finalResponseOf (envFinal cs.length "planner")) = false →
        "ok" = envFinal cs.length "planner") ∧
      (envFinal cs.length "planner" ≠ "" → ("ok" : String) ≠ "") :=
  final_text_spec envFinal argsW
    { output := "ok", calls := ["planner", "planner"] } (by rfl)

/-! ### Claim C8 — rerun selection in the repair phase -/

theorem rerunResearchStep_spec (env : CrewEnv) (a : Args) (po : PyVal)
    (prev : String) (b1 b2 : Bool) (c : List String) (out : String × List String)
    (h : rerunResearchStep env a po prev b1 b2 c = some out) :
    ((b1 && b2) = true → out.2 = c ++ ["research"]) ∧
    ((b1 && b2) = false → out = (prev, c)) := by
  unfold rerunResearchStep at h
  split at h
  · rename_i hb
    exact ⟨fun _ => runResearchStage_calls env a po c out h,
           fun hf => absurd hb (by simp [hf])⟩
  · rename_i hb
    cases h
    exact ⟨fun ht => absurd ht hb, fun _ => rfl⟩

theorem rerunQuantStep_spec (env : CrewEnv) (a : Args) (po : PyVal)
    (prev : String) (b1 b2 : Bool) (c : List String) (out : String × List String)
    (h : rerunQuantStep env a po prev b1 b2 c = some out) :
    ((b1 && b2) = true → out.2 = c ++ ["quant"]) ∧
    ((b1 && b2) = false → out = (prev, c)) := by
  unfold rerunQuantStep runTask at h
  split at h
  · rename_i hb
    refine ⟨fun _ => ?_, fun hf => absurd hb (by simp [hf])⟩
    split at h
    · exact Option.noConfusion h
    · split at h
      · exact Option.noConfusion h
      · cases h; rfl
  · rename_i hb
    cases h
    exact ⟨fun ht => absurd ht hb, fun _ => rfl⟩

/-- C8: in every repair-phase execution, a stage is re-executed (its task
appears one more time in the trace) iff its name is in the auditor's
`required_reruns` (by Python `in` semantics) **and** the revised plan's
flag parses to true; a stage named in `required_reruns` but deselected
by the revised plan is not re-run and keeps its previous output, as does
an unnamed stage. -/
theorem rerun_selection (env : CrewEnv) (a : Args) (s : LoopState)
    (ao : PyVal) (c1 : List String) (rr : PyVal) (s' : LoopState)
    (h : repairPhase env a s ao c1 rr = some s') :
    ∃ ur uq in_res in_q,
      pyGet (planOf (parse_json (env c1.length "planner"))) "use_research" = some ur ∧
      pyGet (planOf (parse_json (env c1.length "planner"))) "use_quant" = some uq ∧
      pyContains rr "research" = some in_res ∧
      pyContains rr "quant" = some in_q ∧
      countTask "research" s'.calls =
        countTask "research" c1 + (if in_res && as_bool ur then 1 else 0) ∧
      ((in_res && as_bool ur) = false → s'.research_output = s.research_output) ∧
      countTask "quant" s'.calls =
        countTask "quant" c1 + (if in_q && as_bool uq then 1 else 0) ∧
      ((in_q && as_bool uq) = false → s'.quant_output = s.quant_output) := by
  unfold repairPhase runTask at h
  split at h
  rename_i x pr c2 heq
  injection heq with e1 e2
  subst e1
  subst e2
  dsimp only at h
  split at h
  case h_2 => exact Option.noConfusion h
  case h_1 urv uqv hur huq =>
    split at h
    · exact Option.noConfusion h
    · rename_i in_res hin_res
      split at h
      · exact Option.noConfusion h
      · rename_i ro c3 hres
        split at h
        · exact Option.noConfusion h
        · rename_i in_q hin_q
          split at h
          · exact Option.noConfusion h
          · rename_i qo c4 hq
            cases h
            obtain ⟨hrt, hrf⟩ := rerunResearchStep_spec env a _ _ _ _ _ _ hres
            obtain ⟨hqt, hqf⟩ := rerunQuantStep_spec env a _ _ _ _ _ _ hq
            have hres' : ((in_res && as_bool urv) = true ∧
                  c3 = (c1 ++ ["planner"]) ++ ["research"]) ∨
                ((in_res && as_bool urv) = false ∧ ro = s.research_output ∧
                  c3 = c1 ++ ["planner"]) := by
              cases hcr : (in_res && as_bool urv) with
              | false =>
                  have h33 := hrf hcr
                  injection h33 with hro hc3
                  exact Or.inr ⟨rfl, hro, hc3⟩
              | true =>
                  exact Or.inl ⟨rfl, by simpa using hrt hcr⟩
            have hq' : ((in_q && as_bool uqv) = true ∧ c4 = c3 ++ ["quant"]) ∨
                ((in_q && as_bool uqv) = false ∧ qo = s.quant_output ∧ c4 = c3) := by
              cases hq2 : (in_q && as_bool uqv) with
              | false =>
                  have h44 := hqf hq2
                  injection h44 with hqo hc4
                  exact Or.inr ⟨rfl, hqo, hc4⟩
              | true =>
                  exact Or.inl ⟨rfl, by simpa using hqt hq2⟩
            refine ⟨urv, uqv, in_res, in_q, hur, huq, hin_res, hin_q,
              ?_, ?_, ?_, ?_⟩
            · rcases hres' with ⟨hcr, hc3⟩ | ⟨hcr, hro, hc3⟩ <;>
                rcases hq' with ⟨hq2, hc4⟩ | ⟨hq2, hqo, hc4⟩ <;>
                subst hc4 <;> subst hc3 <;>
                simp [countTask_append, countTask_cons, countTask_nil, hcr]
            · intro hf
              rcases hres' with ⟨hcr, _⟩ | ⟨_, hro, _⟩
              · rw [hf] at hcr; exact Bool.noConfusion hcr
              · simpa using hro
            · rcases hres' with ⟨hcr, hc3⟩ | ⟨hcr, hro, hc3⟩ <;>
                rcases hq' with ⟨hq2, hc4⟩ | ⟨hq2, hqo, hc4⟩ <;>
                subst hc4 <;> subst hc3 <;>
                simp [countTask_append, countTask_cons, countTask_nil, hq2]
            · intro hf
              rcases hq' with ⟨hq2, _⟩ | ⟨_, hqo, _⟩
              · rw [hf] at hq2; exact Bool.noConfusion hq2
              · simpa using hqo

/-- A crew oracle whose revised plan selects research but deselects
quant. -/
def envC8 : CrewEnv := fun _ task =>
  if task = "planner" then
    "\x7b\"plan\": \x7b\"use_research\": true, \"use_quant\": false\x7d, \"research_request\": \x7b\x7d\x7d"
  else "new research"

/-- A loop state entering a repair phase with previous stage outputs. -/
def loopState0 : LoopState :=
  { calls := [], research_output := "old_r", quant_output := "old_q",
    audit_output := .str "", use_audit := true }

/-- C8 (witness): with `required_reruns = ["research", "quant"]` and a
revised plan keeping only research, the repair phase re-runs research
exactly once and keeps the previous quant output untouched. -/
theorem rerun_selection_witness :
    ∃ ur uq in_res in_q,
      pyGet (planOf (parse_json (envC8 0 "planner"))) "use_research" = some ur ∧
      pyGet (planOf (parse_json (envC8 0 "planner"))) "use_quant" = some uq ∧
      pyContains (PyVal.list [PyVal.str "research", PyVal.str "quant"])
        "research" = some in_res ∧
      pyContains (PyVal.list [PyVal.str "research", PyVal.str "quant"])
        "quant" = some in_q ∧
      countTask "research" (["planner", "research"] : List String) =
        countTask "research" ([] : List String) +
          (if in_res && as_bool ur then 1 else 0) ∧
      ((in_res && as_bool ur) = false →
        ("new research" : String) = loopState0.research_output) ∧
      countTask "quant" (["planner", "research"] : List String) =
        countTask "quant" ([] : List String) +
          (if in_q && as_bool uq then 1 else 0) ∧
      ((in_q && as_bool uq) = false →
        ("old_q" : String) = loopState0.quant_output) :=
  rerun_selection envC8 argsW loopState0 (PyVal.str "") []
    (PyVal.list [PyVal.str "research", PyVal.str "quant"])
    { calls := ["planner", "research"], research_output := "new research",
      quant_output := "old_q", audit_output := PyVal.str "", use_audit := true }
    (by rfl)

/-! ### Claim C6 — related/recent de-duplication -/

theorem count_filter_eq_one {α : Type} (f : α → String) (l : List α)
    (hnd : (l.map f).Nodup) (x : α) (hx : x ∈ l) :
    (l.filter (fun y => f y = f x)).length = 1 := by
  induction l with
  | nil => cases hx
  | cons a t ih =>
      rw [List.map_cons, List.nodup_cons] at hnd
      obtain ⟨hna, hndt⟩ := hnd
      rcases List.mem_cons.mp hx with rfl | hx
      · rw [List.filter_cons_of_pos (by simp)]
        have : t.filter (fun y => f y = f x) = [] := by
          rw [List.filter_eq_nil_iff]
          intro b hb
          simp only [decide_eq_true_eq]
          intro hfb
          exact hna (hfb ▸ List.mem_map_of_mem f hb)
        rw [this]
        rfl
      · have hne : ¬(f a = f x) := by
          intro hfa
          exact hna (hfa ▸ List.mem_map_of_mem f hx)
        rw [List.filter_cons_of_neg (by simpa using hne)]
        exact ih hndt hx

/-- C6: in `build_summary`'s structured content, no related entry whose
message id matches a recent message survives the `seen` exclusion (so no
message shown under "Recent messages" is repeated under "Relevant past
context"), and — when the related entries carry pairwise distinct
message ids, as they do whenever each message was indexed once — every
surviving related entry appears exactly once. -/
theorem related_recent_dedup (env : MemEnv) (st : Store) (tid query : String)
    (hnd : ((search_related env st tid query 6).map (·.message_id)).Nodup) :
    (∀ item ∈ (buildSummaryParts env st tid query).2,
       ∀ m ∈ (buildSummaryParts env st tid query).1, item.message_id ≠ m.id) ∧
    (∀ item ∈ search_related env st tid query 6,
       (∃ m ∈ (buildSummaryParts env st tid query).1, item.message_id = m.id) →
       item ∉ (buildSummaryParts env st tid query).2) ∧
    (∀ item ∈ (buildSummaryParts env st tid query).2,
       ((buildSummaryParts env st tid query).2.filter
         (fun x => x.message_id = item.message_id)).length = 1) := by
  have hmem : ∀ item ∈ (buildSummaryParts env st tid query).2,
      ∀ m ∈ (buildSummaryParts env st tid query).1, item.message_id ≠ m.id := by
    intro item hitem m hm
    simp only [buildSummaryParts] at hitem hm
    rw [List.mem_filter] at hitem
    obtain ⟨_, hpred⟩ := hitem
    intro heq
    rw [Bool.not_eq_true'] at hpred
    have hin : item.message_id ∈
        ((list_messages st tid 6 true).reverse.map (fun m => m.id)) :=
      heq ▸ List.mem_map_of_mem _ hm
    rw [← List.elem_iff] at hin
    have hpred' : List.elem item.message_id
        ((list_messages st tid 6 true).reverse.map (fun m => m.id)) = false := hpred
    exact Bool.noConfusion (hpred'.symm.trans hin)
  refine ⟨hmem, ?_, ?_⟩
  · intro item hrel ⟨m, hm, heq⟩ hkept
    exact hmem item hkept m hm heq
  · intro item hitem
    have hsub : ((buildSummaryParts env st tid query).2.map (·.message_id)).Sublist
        ((search_related env st tid query 6).map (·.message_id)) := by
      simp only [buildSummaryParts]
      exact (List.filter_sublist _).map _
    exact count_filter_eq_one _ _ (hnd.sublist hsub) item hitem

/-- The store of the C6 witness: one thread with seven messages, the
oldest one indexed in the vector store. -/
def stW6 : Store :=
  { messages :=
      [⟨"m1", "t", "user", "c1", 1⟩, ⟨"m2", "t", "user", "c2", 2⟩,
       ⟨"m3", "t", "user", "c3", 3⟩, ⟨"m4", "t", "user", "c4", 4⟩,
       ⟨"m5", "t", "user", "c5", 5⟩, ⟨"m6", "t", "user", "c6", 6⟩,
       ⟨"m7", "t", "user", "c7", 7⟩],
    embeddings := [⟨1, "m1", "t"⟩],
    counter := some 1 }

/-- The memory oracle of the C6 witness: the index finds the oldest
message's vector. -/
def memEnvW : MemEnv :=
  { hasClient := true, provider := fun _ => some [1], normalize := id,
    search := fun _ _ => ([1], [1]) }

/-- C6 (witness): with six recent messages and an older seventh closest
to the query, the older message survives under "related" exactly once,
and no recent message reappears there. -/
theorem related_recent_dedup_witness :
    (∀ item ∈ (buildSummaryParts memEnvW stW6 "t" "q").2,
       ∀ m ∈ (buildSummaryParts memEnvW stW6 "t" "q").1, item.message_id ≠ m.id) ∧
    (∀ item ∈ search_related memEnvW stW6 "t" "q" 6,
       (∃ m ∈ (buildSummaryParts memEnvW stW6 "t" "q").1, item.message_id = m.id) →
       item ∉ (buildSummaryParts memEnvW stW6 "t" "q").2) ∧
    (∀ item ∈ (buildSummaryParts memEnvW stW6 "t" "q").2,
       ((buildSummaryParts memEnvW stW6 "t" "q").2.filter
         (fun x => x.message_id = item.message_id)).length = 1) :=
  related_recent_dedup memEnvW stW6 "t" "q" (by decide)

/-! ### Claim C5 — search_related join correctness -/

/-- Faiss pads its result with the sentinel id −1 only after the valid
hits: once a −1 appears, everything after it is −1. -/
def sentinelSuffix (l : List Int) : Bool :=
  (l.dropWhile (fun i => i ≠ -1)).all (fun i => i = -1)

theorem lastWins_mem {α : Type} (p : α → Bool) (l : List α) (x : α)
    (h : lastWins p l = some x) : x ∈ l ∧ p x = true := by
  unfold lastWins at h
  exact ⟨List.mem_reverse.mp (List.mem_of_find?_eq_some h), List.find?_some h⟩

theorem fetch_embedding_meta_mem (st : Store) (ids : List Int) (tid : String)
    (e : EmbRec) (h : e ∈ fetch_embedding_meta st ids tid) :
    e ∈ st.embeddings ∧ e.threadId = tid := by
  unfold fetch_embedding_meta at h
  split at h
  · cases h
  · rw [List.mem_filter] at h
    obtain ⟨h1, h2⟩ := h
    simp only [Bool.and_eq_true, decide_eq_true_eq] at h2
    exact ⟨h1, h2.2⟩

theorem fetch_messages_by_ids_mem (st : Store) (mids : List String) (m : Msg)
    (h : m ∈ fetch_messages_by_ids st mids) : m ∈ st.messages := by
  unfold fetch_messages_by_ids at h
  split at h
  · cases h
  · exact (List.mem_filter.mp h).1

theorem joinEntry_spec (st : Store) (ids : List Int) (tid : String)
    (vid : Int) (sc : ℚ) (r : RelEntry)
    (h : joinEntry (fetch_embedding_meta st ids tid)
           (fetch_messages_by_ids st
             ((fetch_embedding_meta st ids tid).map (·.message_id)))
           (vid, sc) = some r) :
    r.score = sc ∧
    ((∃ e ∈ st.embeddings, e.vector_id = vid ∧ e.threadId = tid ∧
        e.message_id = r.message_id) ∧
     (∃ m ∈ st.messages, m.id = r.message_id ∧ r.role = m.role ∧
        r.content = m.content)) := by
  unfold joinEntry at h
  split at h
  · exact Option.noConfusion h
  · rename_i e heq1
    split at h
    · exact Option.noConfusion h
    · rename_i m heq2
      cases h
      obtain ⟨he_mem, he_pred⟩ := lastWins_mem _ _ _ heq1
      obtain ⟨hm_mem, hm_pred⟩ := lastWins_mem _ _ _ heq2
      rw [decide_eq_true_eq] at he_pred hm_pred
      obtain ⟨he_in, he_tid⟩ := fetch_embedding_meta_mem st ids tid e he_mem
      refine ⟨rfl, ⟨e, he_in, he_pred, he_tid, rfl⟩, ?_⟩
      exact ⟨m, fetch_messages_by_ids_mem st _ m hm_mem, hm_pred, rfl, rfl⟩

theorem filtered_zip_props {P : Int → RelEntry → Prop} (g : Int × ℚ → Option RelEntry)
    (hg : ∀ vid sc r, g (vid, sc) = some r → r.score = sc ∧ P vid r) :
    ∀ (l : List Int) (s : List ℚ), sentinelSuffix l = true →
      (l.filter (fun i => i ≠ -1)).Nodup →
      ∀ r ∈ ((l.filter (fun i => i ≠ -1)).zip s).filterMap g,
        ∃ vid, vid ∈ l ∧ vid ≠ -1 ∧ P vid r ∧
          (l.zip s).find? (fun p => p.1 = vid) = some (vid, r.score) := by
  intro l
  induction l with
  | nil => intro s _ _ r hr; simp at hr
  | cons a t ih =>
      intro s hsuf hnd r hr
      by_cases ha : a = -1
      · subst ha
        have hall : ∀ b ∈ t, b = (-1 : Int) := by
          simp only [sentinelSuffix, List.dropWhile_cons] at hsuf
          simp only [show (decide ((-1 : Int) ≠ -1)) = false by decide,
            Bool.false_eq_true, if_false, List.all_cons, Bool.and_eq_true,
            List.all_eq_true, decide_eq_true_eq] at hsuf
          exact hsuf.2
        have hfil : (((-1 : Int) :: t).filter (fun i => i ≠ -1)) = [] := by
          rw [List.filter_eq_nil_iff]
          intro b hb
          rcases List.mem_cons.mp hb with rfl | hb
          · simp
          · simp [hall b hb]
        rw [hfil] at hr
        simp at hr
      · have hfil : ((a :: t).filter (fun i => i ≠ -1)) =
            a :: t.filter (fun i => i ≠ -1) := by
          rw [List.filter_cons_of_pos (by simpa using ha)]
        rw [hfil] at hr
        cases s with
        | nil => simp at hr
        | cons sc st' =>
            rw [List.zip_cons_cons] at hr ⊢
            have hsuft : sentinelSuffix t = true := by
              simp only [sentinelSuffix, List.dropWhile_cons] at hsuf ⊢
              rwa [if_pos (by simpa using ha)] at hsuf
            rw [hfil] at hnd
            rw [List.nodup_cons] at hnd
            obtain ⟨hna, hndt⟩ := hnd
            have hlift : ∀ r0 ∈ ((t.filter (fun i => i ≠ -1)).zip st').filterMap g,
                ∃ vid, vid ∈ a :: t ∧ vid ≠ -1 ∧ P vid r0 ∧
                  ((a, sc) :: t.zip st').find? (fun p => p.1 = vid) =
                    some (vid, r0.score) := by
              intro r0 hr0
              obtain ⟨vid, hv1, hv2, hv3, hv4⟩ := ih st' hsuft hndt r0 hr0
              have hvne : a ≠ vid := by
                intro hav
                exact hna (hav ▸ List.mem_filter.mpr ⟨hv1, by simpa using hv2⟩)
              refine ⟨vid, List.mem_cons_of_mem a hv1, hv2, hv3, ?_⟩
              rw [List.find?_cons_of_neg _ (by simpa using hvne)]
              exact hv4
            cases hga : g (a, sc) with
            | none =>
                rw [List.filterMap_cons_none hga] at hr
                exact hlift r hr
            | some r0 =>
                rw [List.filterMap_cons_some hga] at hr
                rcases List.mem_cons.mp hr with rfl | hr
                · obtain ⟨hsc, hP⟩ := hg a sc r hga
                  refine ⟨a, List.mem_cons_self a t, ha, hP, ?_⟩
                  rw [List.find?_cons_of_pos _ (by simp), hsc]
                · exact hlift r hr

theorem filterMap_zip_scores_sublist (g : Int × ℚ → Option RelEntry)
    (hg : ∀ vid sc r, g (vid, sc) = some r → r.score = sc) :
    ∀ (l : List Int) (s : List ℚ),
      (((l.zip s).filterMap g).map (fun r => r.score)).Sublist s := by
  intro l
  induction l with
  | nil => intro s; simp
  | cons a t ih =>
      intro s
      cases s with
      | nil => simp
      | cons sc st' =>
          rw [List.zip_cons_cons, List.filterMap_cons]
          cases hga : g (a, sc) with
          | none => exact (ih st').cons sc
          | some r0 =>
              rw [List.map_cons, hg a sc r0 hga]
              exact (ih st').cons₂ sc

/-- C5: for every `search_related` call whose query embeds successfully,
provided the index behaves as Faiss does — ids and scores of equal
length, −1 sentinels only as a suffix, valid ids pairwise distinct,
scores in descending order — every returned entry corresponds to a
non-sentinel vector id with a matching thread-scoped embedding record
and a matching message, carries exactly the index score paired with its
own vector id, and the entries appear in descending score order. -/
theorem search_related_spec (env : MemEnv) (st : Store) (tid query : String)
    (k : Nat) (v : List ℚ) (idsRaw : List Int) (scores : List ℚ)
    (hemb : mem_embed env query = some v)
    (hres : env.search v k = (idsRaw, scores))
    (hsuf : sentinelSuffix idsRaw = true)
    (hnd : (idsRaw.filter (fun i => i ≠ -1)).Nodup)
    (hsort : scores.Pairwise (· ≥ ·)) :
    (∀ r ∈ search_related env st tid query k,
       ∃ vid, vid ∈ idsRaw ∧ vid ≠ -1 ∧
         (∃ e ∈ st.embeddings, e.vector_id = vid ∧ e.threadId = tid ∧
            e.message_id = r.message_id) ∧
         (∃ m ∈ st.messages, m.id = r.message_id ∧ r.role = m.role ∧
            r.content = m.content) ∧
         (idsRaw.zip scores).find? (fun p => p.1 = vid) = some (vid, r.score)) ∧
    ((search_related env st tid query k).map (fun r => r.score)).Pairwise (· ≥ ·) := by
  have hsr : search_related env st tid query k =
      (((idsRaw.filter (fun i => i ≠ -1)).zip scores).filterMap
        (joinEntry
          (fetch_embedding_meta st (idsRaw.filter (fun i => i ≠ -1)) tid)
          (fetch_messages_by_ids st
            ((fetch_embedding_meta st (idsRaw.filter (fun i => i ≠ -1)) tid).map
              (·.message_id))))) := by
    have h1 : (env.search v k).1 = idsRaw := by rw [hres]
    have h2 : (env.search v k).2 = scores := by rw [hres]
    unfold search_related
    rw [hemb]
    dsimp only
    rw [h1, h2]
  rw [hsr]
  have hg : ∀ vid sc r,
      joinEntry
        (fetch_embedding_meta st (idsRaw.filter (fun i => i ≠ -1)) tid)
        (fetch_messages_by_ids st
          ((fetch_embedding_meta st (idsRaw.filter (fun i => i ≠ -1)) tid).map
            (·.message_id))) (vid, sc) = some r →
      r.score = sc ∧
      ((∃ e ∈ st.embeddings, e.vector_id = vid ∧ e.threadId = tid ∧
          e.message_id = r.message_id) ∧
       (∃ m ∈ st.messages, m.id = r.message_id ∧ r.role = m.role ∧
          r.content = m.content)) :=
    fun vid sc r h => joinEntry_spec st _ tid vid sc r h
  constructor
  · intro r hr
    obtain ⟨vid, h1, h2, h3, h4⟩ :=
      filtered_zip_props _ hg idsRaw scores hsuf hnd r hr
    exact ⟨vid, h1, h2, h3.1, h3.2, h4⟩
  · refine List.Pairwise.sublist ?_ hsort
    exact filterMap_zip_scores_sublist _ (fun vid sc r h => (hg vid sc r h).1)
      (idsRaw.filter (fun i => i ≠ -1)) scores

/-- Memory oracle of the C5 witness: two hits and a sentinel pad, scores
descending. -/
def memEnvW5 : MemEnv :=
  { hasClient := true, provider := fun _ => some [1], normalize := id,
    search := fun _ _ => ([2, 1, -1], [9, 7, 0]) }

/-- Store of the C5 witness: two indexed messages in thread `t`. -/
def stW5 : Store :=
  { messages :=
      [⟨"m1", "t", "user", "c1", 1⟩, ⟨"m2", "t", "assistant", "c2", 2⟩],
    embeddings := [⟨1, "m1", "t"⟩, ⟨2, "m2", "t"⟩],
    counter := some 2 }

/-- C5 (witness): the concrete search joins both hits, drops the
sentinel, and returns descending scores. -/
theorem search_related_spec_witness :
    (∀ r ∈ search_related memEnvW5 stW5 "t" "q" 6,
       ∃ vid, vid ∈ ([2, 1, -1] : List Int) ∧ vid ≠ -1 ∧
         (∃ e ∈ stW5.embeddings, e.vector_id = vid ∧ e.threadId = "t" ∧
            e.message_id = r.message_id) ∧
         (∃ m ∈ stW5.messages, m.id = r.message_id ∧ r.role = m.role ∧
            r.content = m.content) ∧
         (([2, 1, -1] : List Int).zip ([9, 7, 0] : List ℚ)).find?
           (fun p => p.1 = vid) = some (vid, r.score)) ∧
    ((search_related memEnvW5 stW5 "t" "q" 6).map (fun r => r.score)).Pairwise
      (· ≥ ·) :=
  search_related_spec memEnvW5 stW5 "t" "q" 6 [1] [2, 1, -1] [9, 7, 0]
    (by rfl) (by rfl) (by decide) (by decide) (by decide)

end Fis
